import Mathlib

/-!
Verification of the chunked/multipart upload coordinator of the
rclone-file-upload repository.

The coordinator exists in two variants:
* the remote-part (MinIO) variant: `initiateMultipartHandler`,
  `uploadChunkHandler`, `completeMultipartUpload`, `abortMultipartHandler`,
  `cleanupOldSessions`;
* the local-staging (RClone/POSIX) variant: `initiateMultipartHandlerRClone`,
  `uploadChunkHandlerRClone`, `finalizeRCloneUpload`,
  `abortMultipartHandlerRClone`.

The Go code is shallowly embedded below.  Go maps are embedded as
association lists with overwrite-on-insert semantics (`mapInsert`), Go byte
slices as `List Nat`, `time.Time` as an `Int` nanosecond count, and the
external object store as an explicit `RemoteStore` value.  External failures
(a failed `PutObjectPart`, `io.Copy`, `CompleteMultipartUpload` or staging
finalization) are nondeterministic inputs modelled as `Bool`/value oracle
parameters of the handler functions.
-/

set_option autoImplicit false

namespace Upload

/-- A byte string (Go `[]byte` / the content of an uploaded chunk). -/
abbrev Bytes := List Nat

section AssocMap

variable {K : Type} [DecidableEq K] {α : Type}

/-- Lookup in a Go-map embedded as an association list. -/
def mapLookup (k : K) : List (K × α) → Option α
  | [] => none
  | (k', v) :: rest => if k' = k then some v else mapLookup k rest

/-- Go-map assignment `m[k] = v`: overwrite the entry for `k` if present,
otherwise add a new entry. -/
def mapInsert (k : K) (v : α) : List (K × α) → List (K × α)
  | [] => [(k, v)]
  | (k', v') :: rest =>
      if k' = k then (k, v) :: rest else (k', v') :: mapInsert k v rest

/-- Go-map `delete(m, k)`. -/
def mapDelete (k : K) : List (K × α) → List (K × α)
  | [] => []
  | (k', v) :: rest =>
      if k' = k then mapDelete k rest else (k', v) :: mapDelete k rest

@[simp] theorem mapLookup_nil (k : K) : mapLookup k ([] : List (K × α)) = none := rfl

end AssocMap

/-! ## The remote object store

The S3-compatible store is an external collaborator (spec §1 treats it as a
capability: put part, complete multipart, abort multipart).  It is modelled
as a registry of multipart uploads keyed by upload ID; each upload holds the
last-written content per part number, and completion concatenates the parts
named by the ordered tag list handed to `CompleteMultipartUpload`. -/

/-- Completion marker returned by `PutObjectPart` and replayed to
`CompleteMultipartUpload` (minio.CompletePart).  The ETag is determined by
the part's content (content hash); it is modelled as the content itself. -/
structure CompletePart where
  partNumber : Int
  etag : Bytes
deriving DecidableEq, Repr

/-- The ETag the store computes for uploaded content. -/
def etagOf (b : Bytes) : Bytes := b

inductive UploadStatus where
  | active
  | completed (obj : Bytes)
  | aborted
deriving DecidableEq, Repr

structure MultipartUpload where
  parts : List (Int × Bytes)
  status : UploadStatus
deriving DecidableEq, Repr

structure RemoteStore where
  uploads : List (String × MultipartUpload)
deriving DecidableEq, Repr

/-- `coreClient.NewMultipartUpload`: register a fresh active upload. -/
def newMultipartUpload (r : RemoteStore) (uid : String) : RemoteStore :=
  { uploads := mapInsert uid ⟨[], .active⟩ r.uploads }

/-- `coreClient.PutObjectPart`: store (overwrite) the content of one
numbered part of an upload. -/
def putObjectPart (r : RemoteStore) (uid : String) (partNumber : Int)
    (content : Bytes) : RemoteStore :=
  match mapLookup uid r.uploads with
  | none => r
  | some up =>
      { uploads := mapInsert uid
          { up with parts := mapInsert partNumber content up.parts } r.uploads }

/-- Assembly done by the store on `CompleteMultipartUpload`: the parts named
by the ordered tag list, concatenated in that order. -/
def assemble (parts : List (Int × Bytes)) (tags : List CompletePart) : Bytes :=
  (tags.map (fun cp => (mapLookup cp.partNumber parts).getD [])).flatten

/-- `coreClient.CompleteMultipartUpload` (successful call). -/
def completeUpload (r : RemoteStore) (uid : String)
    (tags : List CompletePart) : RemoteStore :=
  match mapLookup uid r.uploads with
  | none => r
  | some up =>
      { uploads := mapInsert uid
          { up with status := .completed (assemble up.parts tags) } r.uploads }

/-- `coreClient.AbortMultipartUpload`. -/
def abortUpload (r : RemoteStore) (uid : String) : RemoteStore :=
  match mapLookup uid r.uploads with
  | none => r
  | some up =>
      { uploads := mapInsert uid { up with status := .aborted } r.uploads }

/-- The backing multipart upload `uid` has been released at the store. -/
def UploadAborted (r : RemoteStore) (uid : String) : Prop :=
  ∃ pr, mapLookup uid r.uploads = some pr ∧ pr.status = .aborted

/-! ## Data model (both variants) -/

/-- `ChunkUploadSession` (remote/MinIO variant).  `startTime` is the
`time.Time` at creation, in nanoseconds. -/
structure ChunkUploadSession where
  uploadID : String
  fileName : String
  totalParts : Int
  uploadedParts : List (Int × CompletePart)
  startTime : Int
deriving DecidableEq, Repr

/-- `ChunkUploadSessionRClone` (local-staging variant).  The exclusively
owned staging temp file is carried as its current content; the struct has no
creation timestamp in the source. -/
structure ChunkUploadSessionRClone where
  sessionID : String
  fileName : String
  filePath : String
  tempContent : Bytes
  totalParts : Int
  receivedParts : List (Int × Bool)
deriving DecidableEq, Repr

/-- The process-wide mutable state: the two session registries
(`uploadSessions`, `uploadSessionsRClone`), the remote store, and the local
filesystem objects produced by finalized staging uploads. -/
structure ServerState where
  sessions : List (String × ChunkUploadSession)
  rcloneSessions : List (String × ChunkUploadSessionRClone)
  remote : RemoteStore
  localFiles : List (String × Bytes)
deriving DecidableEq, Repr

inductive InitiateResult where
  | initiated (sessionID : String)
  | storeFailure
deriving DecidableEq, Repr

inductive ChunkResponse where
  | sessionNotFound
  | chunkPersistFailure
  | finalizeFailure
  | completed
  | progressResp (p : ℚ)
deriving DecidableEq, Repr

inductive AbortResult where
  | badRequest
  | sessionNotFound
  | aborted
deriving DecidableEq, Repr

/-! ## Remote-part (MinIO) handlers -/

/-- `initiateMultipartHandler`: create the backing multipart upload at the
store and register the session.  `newOk` is the store-call oracle; the
object-key computation from path and filename is elided (no claim concerns
it) and the resulting key is taken as `objectKey`.  Note: `totalParts` is
stored without any validation. -/
def initiateMultipartHandler (st : ServerState) (sessionID uploadID objectKey : String)
    (totalParts : Int) (now : Int) (newOk : Bool) : ServerState × InitiateResult :=
  if !newOk then (st, .storeFailure)
  else
    ({ st with
        remote := newMultipartUpload st.remote uploadID,
        sessions := mapInsert sessionID
          { uploadID := uploadID, fileName := objectKey, totalParts := totalParts,
            uploadedParts := [], startTime := now } st.sessions },
     .initiated sessionID)

/-- `completeMultipartUpload`: gather the recorded tags for part numbers
`1..totalParts` in order, call the store's complete-multipart operation
(oracle `completeOk`), and only on success delete the session. -/
def completeMultipartUpload (st : ServerState) (sessionID : String)
    (session : ChunkUploadSession) (completeOk : Bool) :
    ServerState × ChunkResponse :=
  let parts : List CompletePart :=
    (List.range session.totalParts.toNat).filterMap
      (fun i : Nat => mapLookup ((i : Int) + 1) session.uploadedParts)
  if !completeOk then (st, .finalizeFailure)
  else
    ({ st with
        remote := completeUpload st.remote session.uploadID parts,
        sessions := mapDelete sessionID st.sessions },
     .completed)

/-- `uploadChunkHandler`: resolve the session, upload the part to the store
(oracle `putOk`; on failure the handler returns before touching the session),
then under `session.mu` record the part and read the count.  The mutex is
released before the completion check; if the captured count equals
`totalParts` the handler calls `completeMultipartUpload`. -/
def uploadChunkHandler (st : ServerState) (sessionID : String) (partNumber : Int)
    (chunk : Bytes) (putOk : Bool) (completeOk : Bool) :
    ServerState × ChunkResponse :=
  match mapLookup sessionID st.sessions with
  | none => (st, .sessionNotFound)
  | some session =>
      if !putOk then (st, .chunkPersistFailure)
      else
        let remoteNext := putObjectPart st.remote session.uploadID partNumber chunk
        let sessionNext := { session with
          uploadedParts := mapInsert partNumber
            ⟨partNumber, etagOf chunk⟩ session.uploadedParts }
        let uploadedCount : Int := sessionNext.uploadedParts.length
        let stNext := { st with
          remote := remoteNext,
          sessions := mapInsert sessionID sessionNext st.sessions }
        let progress : ℚ := (uploadedCount : ℚ) / (session.totalParts : ℚ) * 100
        if uploadedCount = session.totalParts then
          completeMultipartUpload stNext sessionID sessionNext completeOk
        else
          (stNext, .progressResp progress)

/-- `abortMultipartHandler`: remove the session from the registry first,
then call the store's abort (whose failure is only logged). -/
def abortMultipartHandler (st : ServerState) (sessionID : String) :
    ServerState × AbortResult :=
  if sessionID = "" then (st, .badRequest)
  else
    match mapLookup sessionID st.sessions with
    | none => (st, .sessionNotFound)
    | some session =>
        ({ st with
            sessions := mapDelete sessionID st.sessions,
            remote := abortUpload st.remote session.uploadID },
         .aborted)

/-- 24 hours in nanoseconds: the maximum session age used by
`cleanupOldSessions`. -/
def maxSessionAge : Int := 24 * 60 * 60 * 1000000000

/-- The loop body of `cleanupOldSessions` over the `uploadSessions` map:
abort at the store and drop every session older than `maxSessionAge`. -/
def sweepSessions (now : Int) :
    List (String × ChunkUploadSession) → RemoteStore →
      List (String × ChunkUploadSession) × RemoteStore
  | [], r => ([], r)
  | (sid, s) :: rest, r =>
      if maxSessionAge < now - s.startTime then
        sweepSessions now rest (abortUpload r s.uploadID)
      else
        ((sid, s) :: (sweepSessions now rest r).1, (sweepSessions now rest r).2)

/-- One pass of `cleanupOldSessions` at wall-clock time `now`.  Only the
MinIO `uploadSessions` registry is scanned; the RClone registry and the
local files are untouched (the source has no sweeper for them). -/
def cleanupPass (now : Int) (st : ServerState) : ServerState :=
  let swept := sweepSessions now st.sessions st.remote
  { st with sessions := swept.1, remote := swept.2 }

/-! ## Local-staging (RClone) handlers -/

/-- `initiateMultipartHandlerRClone`: create the staging temp file (oracle
`tempOk`) and register the session.  `totalParts` again stored without
validation; the session records no creation time. -/
def initiateMultipartHandlerRClone (st : ServerState)
    (sessionID targetPath fileName : String) (totalParts : Int)
    (tempOk : Bool) : ServerState × InitiateResult :=
  if !tempOk then (st, .storeFailure)
  else
    ({ st with
        rcloneSessions := mapInsert sessionID
          { sessionID := sessionID, fileName := fileName, filePath := targetPath,
            tempContent := [], totalParts := totalParts, receivedParts := [] }
          st.rcloneSessions },
     .initiated sessionID)

/-- `uploadChunkHandlerRClone`: under `session.mu`, `io.Copy` appends the
chunk's bytes at the current end of the staging file, the part number is
recorded and the count read — all *before* the copy error is checked
(`written` is what the failed or successful copy actually wrote, `copyErr`
its error).  On the final count the upload is finalized
(`finalizeRCloneUpload`, collapsed into oracle `finalizeOk`: on success the
staging content is moved — by rename or the copy fallback — to `filePath`);
only on success is the session deleted. -/
def uploadChunkHandlerRClone (st : ServerState) (sessionID : String)
    (partNumber : Int) (written : Bytes) (copyErr : Bool) (finalizeOk : Bool) :
    ServerState × ChunkResponse :=
  match mapLookup sessionID st.rcloneSessions with
  | none => (st, .sessionNotFound)
  | some session =>
      let sessionNext := { session with
        tempContent := session.tempContent ++ written,
        receivedParts := mapInsert partNumber true session.receivedParts }
      let receivedCount : Int := sessionNext.receivedParts.length
      let stNext := { st with
        rcloneSessions := mapInsert sessionID sessionNext st.rcloneSessions }
      if copyErr then (stNext, .chunkPersistFailure)
      else
        let progress : ℚ := (receivedCount : ℚ) / (session.totalParts : ℚ) * 100
        if receivedCount = session.totalParts then
          if finalizeOk then
            ({ stNext with
                rcloneSessions := mapDelete sessionID stNext.rcloneSessions,
                localFiles := mapInsert sessionNext.filePath
                  sessionNext.tempContent stNext.localFiles },
             .completed)
          else (stNext, .finalizeFailure)
        else (stNext, .progressResp progress)

/-- `abortMultipartHandlerRClone`: remove the session (closing and deleting
its temp file, which the session owns exclusively). -/
def abortMultipartHandlerRClone (st : ServerState) (sessionID : String) :
    ServerState × AbortResult :=
  if sessionID = "" then (st, .badRequest)
  else
    match mapLookup sessionID st.rcloneSessions with
    | none => (st, .sessionNotFound)
    | some _ =>
        ({ st with rcloneSessions := mapDelete sessionID st.rcloneSessions },
         .aborted)

/-- Sequential driver: feed a list of `(partNumber, chunk)` uploads to the
remote-path chunk handler, all store calls succeeding. -/
def runChunks (sid : String) : ServerState → List (Int × Bytes) →
    ServerState × List ChunkResponse
  | st, [] => (st, [])
  | st, (pn, c) :: rest =>
      let out := uploadChunkHandler st sid pn c true true
      let tail := runChunks sid out.1 rest
      (tail.1, out.2 :: tail.2)

/-! ## Interleaving model of `uploadChunkHandler`

Many chunk uploads for one session are served by concurrent request
threads.  For a single fixed session, one request thread executes three
atomic sections, with arbitrary interleaving between them:

1. `lookup` — read the registry under `sessionsMu.RLock` (the handler then
   keeps the session pointer even if the session is later deleted);
2. `book` — the `session.mu.Lock()…Unlock()` block: store the part's
   `CompletePart` in `UploadedParts` and capture
   `uploadedCount = len(session.UploadedParts)`;
3. `finish` — *after* the mutex is released: compare the captured count with
   `TotalParts` and, on equality, run `completeMultipartUpload` (the store
   call counted by `finalizeCalls`, then the registry delete).

The store-level part upload between steps 1 and 2 always succeeds here, as
does the complete-multipart call; chunk payloads are irrelevant to the
finalize-count property and are not carried.  The local-staging handler
`uploadChunkHandlerRClone` has the same three-section shape. -/

/-- Where one request thread stands; `booked`/`done` carry the
`uploadedCount` value the thread captured inside the locked section. -/
inductive ThreadPhase where
  | start
  | ready
  | dead
  | booked (captured : Int)
  | done (captured : Int)
deriving DecidableEq, Repr

/-- The captured count of a thread that has passed its locked section. -/
def capturedOf : ThreadPhase → Option Int
  | .booked c => some c
  | .done c => some c
  | _ => none

/-- One session's shared state plus the per-thread control state.  Each
thread is a pending chunk upload, identified by its list position and
carrying its part number. -/
structure RaceState where
  inStore : Bool
  parts : List (Int × CompletePart)
  totalParts : Int
  finalizeCalls : Nat
  threads : List (Int × ThreadPhase)
deriving DecidableEq, Repr

inductive RaceAct where
  | lookup
  | book
  | finish
deriving DecidableEq, Repr

/-- Execute one atomic section of thread `i` (no-op on an impossible
step). -/
def raceStep (st : RaceState) (i : Nat) (a : RaceAct) : RaceState :=
  match st.threads[i]? with
  | none => st
  | some (pn, ph) =>
    match a, ph with
    | .lookup, .start =>
        { st with threads :=
            st.threads.set i (pn, if st.inStore then .ready else .dead) }
    | .book, .ready =>
        let partsNext := mapInsert pn ⟨pn, []⟩ st.parts
        { st with parts := partsNext,
                  threads := st.threads.set i (pn, .booked (partsNext.length : Int)) }
    | .finish, .booked c =>
        if c = st.totalParts then
          { st with finalizeCalls := st.finalizeCalls + 1, inStore := false,
                    threads := st.threads.set i (pn, .done c) }
        else
          { st with threads := st.threads.set i (pn, .done c) }
    | _, _ => st

/-- Run a schedule: an arbitrary interleaving of the threads' sections. -/
def runRace (st : RaceState) (sched : List (Nat × RaceAct)) : RaceState :=
  sched.foldl (fun s step => raceStep s step.1 step.2) st

/-- Initial state: the session is registered with no parts received, and one
pending request thread per listed part number. -/
def mkRace (threadParts : List Int) (totalParts : Int) : RaceState :=
  { inStore := true, parts := [], totalParts := totalParts, finalizeCalls := 0,
    threads := threadParts.map (fun pn => (pn, .start)) }

/-- The single-winner invariant of the race model (a proof device): thread
part numbers stay distinct; the recorded part-number keys are exactly the
part numbers of threads past their locked section; every captured count is
between 1 and the current map size; captured counts are pairwise distinct;
and the store-level finalize has run at most once, the one time by a thread
whose captured count equals `totalParts`. -/
def RaceInv (st : RaceState) : Prop :=
  ((st.threads.map Prod.fst).Nodup) ∧
  (∀ k : Int, (mapLookup k st.parts).isSome = true ↔
    ∃ (i : Nat) (pn : Int) (ph : ThreadPhase),
      st.threads[i]? = some (pn, ph) ∧ pn = k ∧ (capturedOf ph).isSome = true) ∧
  (∀ (i : Nat) (pn : Int) (ph : ThreadPhase) (c : Int),
    st.threads[i]? = some (pn, ph) → capturedOf ph = some c →
      1 ≤ c ∧ c ≤ (st.parts.length : Int)) ∧
  (∀ (i j : Nat) (pi pj : Int) (phi phj : ThreadPhase) (ci cj : Int),
    i ≠ j → st.threads[i]? = some (pi, phi) → st.threads[j]? = some (pj, phj) →
    capturedOf phi = some ci → capturedOf phj = some cj → ci ≠ cj) ∧
  (st.finalizeCalls = 0 ∨
    (st.finalizeCalls = 1 ∧
      ∃ (i : Nat) (pn c : Int), st.threads[i]? = some (pn, .done c) ∧
        c = st.totalParts))

/-! ## Scenario builders used by the per-claim results -/

/-- Part numbers `1..n` as integers. -/
def intRange (n : Nat) : List Int :=
  (List.range n).map (fun i : Nat => (i : Int) + 1)

/-- The remote-path session after the uploads in `done` (in arrival order)
have been recorded. -/
def c5Session (uid key : String) (nTotal : Int)
    (done : List (Int × Bytes)) : ChunkUploadSession :=
  { uploadID := uid, fileName := key, totalParts := nTotal,
    uploadedParts := done.map (fun e => (e.1, (⟨e.1, etagOf e.2⟩ : CompletePart))),
    startTime := 0 }

/-- The remote-path server state midway through an upload: the session has
recorded exactly the uploads in `done` (in arrival order), and the store
holds their bytes.  With `done = []` this is exactly the state
`initiateMultipartHandler` leaves behind on an empty server. -/
def c5SessionState (sid uid key : String) (nTotal : Int)
    (done : List (Int × Bytes)) : ServerState :=
  { sessions := [(sid, c5Session uid key nTotal done)],
    rcloneSessions := [],
    remote := { uploads := [(uid, { parts := done, status := .active })] },
    localFiles := [] }

/-- The object the store assembles when a session whose uploads are `full`
finalizes: parts `1..n` concatenated in part-number order. -/
def c5Obj (n : Nat) (full : List (Int × Bytes)) : Bytes :=
  ((List.range n).map (fun i : Nat => (mapLookup ((i : Int) + 1) full).getD [])).flatten

/-- A server with one remote session 25 hours old and one local-staging
session (created at the same wall-clock moment; the RClone session struct
records no creation time), as seen by a sweep pass at `now = 25h`. -/
def sweepDemoState : ServerState :=
  { sessions := [("m1",
      { uploadID := "uidm", fileName := "a.bin", totalParts := 3,
        uploadedParts := [], startTime := 0 })],
    rcloneSessions := [("r1",
      { sessionID := "r1", fileName := "b.bin", filePath := "/mnt/b.bin",
        tempContent := [1, 2], totalParts := 3, receivedParts := [(1, true)] })],
    remote := { uploads := [("uidm", { parts := [], status := .active })] },
    localFiles := [] }

/-- 25 hours in nanoseconds. -/
def sweepDemoNow : Int := 25 * 60 * 60 * 1000000000

/-- A freshly initiated remote session expecting 2 parts (for the
completion-validation result). -/
def gapDemoState : ServerState := c5SessionState "sess1" "uid1" "big.bin" 2 []

/-- A local-staging session expecting 3 parts, none received yet. -/
def localDemoState : ServerState :=
  { sessions := [],
    rcloneSessions := [("r1",
      { sessionID := "r1", fileName := "b.bin", filePath := "/mnt/b.bin",
        tempContent := [], totalParts := 3, receivedParts := [] })],
    remote := { uploads := [] },
    localFiles := [] }

/-- A server holding one remote-path session and one local-staging session,
each expecting a single part. -/
def pairDemoState : ServerState :=
  { sessions := [("p1",
      { uploadID := "uidp", fileName := "c.bin", totalParts := 1,
        uploadedParts := [], startTime := 0 })],
    rcloneSessions := [("p1",
      { sessionID := "p1", fileName := "c.bin", filePath := "/mnt/c.bin",
        tempContent := [], totalParts := 1, receivedParts := [] })],
    remote := { uploads := [("uidp", { parts := [], status := .active })] },
    localFiles := [] }

/-- A local-staging session that already received part 1 (two parts
expected, two bytes staged so far). -/
def dupDemoState : ServerState :=
  { sessions := [],
    rcloneSessions := [("d1",
      { sessionID := "d1", fileName := "d.bin", filePath := "/mnt/d.bin",
        tempContent := [1, 2], totalParts := 2, receivedParts := [(1, true)] })],
    remote := { uploads := [] },
    localFiles := [] }

/-- A server with a remote-path session declared with `totalParts = -2` and
a local-staging session declared with `totalParts = 0` (both creatable,
since initiation validates nothing). -/
def negDemoState : ServerState :=
  { sessions := [("n1",
      { uploadID := "uidn", fileName := "n.bin", totalParts := -2,
        uploadedParts := [], startTime := 0 })],
    rcloneSessions := [("n1",
      { sessionID := "n1", fileName := "n.bin", filePath := "/mnt/n.bin",
        tempContent := [], totalParts := 0, receivedParts := [] })],
    remote := { uploads := [("uidn", { parts := [], status := .active })] },
    localFiles := [] }

/-! # Theorems

First the association-map lemmas, then the per-claim results. -/

section AssocMapTheorems

variable {K : Type} [DecidableEq K] {α : Type}

theorem mapLookup_insert_self (k : K) (v : α) (l : List (K × α)) :
    mapLookup k (mapInsert k v l) = some v := by
  induction l with
  | nil => simp [mapInsert, mapLookup]
  | cons p rest ih =>
      by_cases h : p.1 = k
      · simp [mapInsert, mapLookup, h]
      · simp [mapInsert, mapLookup, h, ih]

theorem mapLookup_insert_ne (k k' : K) (v : α) (l : List (K × α)) (h : k' ≠ k) :
    mapLookup k' (mapInsert k v l) = mapLookup k' l := by
  induction l with
  | nil => simp [mapInsert, mapLookup, Ne.symm h]
  | cons p rest ih =>
      by_cases hp : p.1 = k
      · subst hp
        simp [mapInsert, mapLookup, Ne.symm h]
      · simp [mapInsert, mapLookup, hp, ih]

/-- Inserting a fresh key appends the new entry at the tail. -/
theorem mapInsert_of_not_mem (k : K) (v : α) (l : List (K × α))
    (h : mapLookup k l = none) : mapInsert k v l = l ++ [(k, v)] := by
  induction l with
  | nil => rfl
  | cons p rest ih =>
      by_cases hp : p.1 = k
      · simp [mapLookup, hp] at h
      · simp [mapLookup, hp] at h
        simp [mapInsert, hp, ih h]

/-- Overwriting a key that is present keeps the number of entries. -/
theorem length_mapInsert_of_mem (k : K) (v w : α) (l : List (K × α))
    (h : mapLookup k l = some w) : (mapInsert k v l).length = l.length := by
  induction l with
  | nil => simp [mapLookup] at h
  | cons p rest ih =>
      by_cases hp : p.1 = k
      · simp [mapInsert, hp]
      · simp [mapLookup, hp] at h
        simp [mapInsert, hp, ih h]

/-- Inserting a fresh key adds one entry. -/
theorem length_mapInsert_of_not_mem (k : K) (v : α) (l : List (K × α))
    (h : mapLookup k l = none) : (mapInsert k v l).length = l.length + 1 := by
  rw [mapInsert_of_not_mem k v l h]
  simp

/-- Re-inserting the value an entry already holds leaves the map unchanged. -/
theorem mapInsert_self (k : K) (v : α) (l : List (K × α))
    (h : mapLookup k l = some v) : mapInsert k v l = l := by
  induction l with
  | nil => simp [mapLookup] at h
  | cons p rest ih =>
      by_cases hp : p.1 = k
      · subst hp
        simp [mapLookup] at h
        simp [mapInsert, ← h]
      · simp [mapLookup, hp] at h
        simp [mapInsert, hp, ih h]

/-- Any non-nil lookup target forces at least one entry. -/
theorem length_pos_of_mapLookup (k : K) (v : α) (l : List (K × α))
    (h : mapLookup k l = some v) : 0 < l.length := by
  cases l with
  | nil => simp [mapLookup] at h
  | cons p rest => simp

theorem mapLookup_delete_self (k : K) (l : List (K × α)) :
    mapLookup k (mapDelete k l) = none := by
  induction l with
  | nil => rfl
  | cons p rest ih =>
      by_cases hp : p.1 = k
      · simp [mapDelete, hp, ih]
      · simp [mapDelete, mapLookup, hp, ih]

theorem mapLookup_delete_ne (k k' : K) (l : List (K × α)) (h : k' ≠ k) :
    mapLookup k' (mapDelete k l) = mapLookup k' l := by
  induction l with
  | nil => rfl
  | cons p rest ih =>
      by_cases hp : p.1 = k
      · subst hp
        simp [mapDelete, mapLookup, Ne.symm h, ih]
      · simp [mapDelete, mapLookup, hp, ih]

/-- Keys after an insert. -/
theorem map_fst_mapInsert_of_not_mem (k : K) (v : α) (l : List (K × α))
    (h : mapLookup k l = none) :
    (mapInsert k v l).map Prod.fst = l.map Prod.fst ++ [k] := by
  rw [mapInsert_of_not_mem k v l h]
  simp

/-- A lookup fails exactly when the key is absent from the key list. -/
theorem mapLookup_eq_none_iff (k : K) (l : List (K × α)) :
    mapLookup k l = none ↔ k ∉ l.map Prod.fst := by
  induction l with
  | nil => simp [mapLookup]
  | cons p rest ih =>
      by_cases hp : p.1 = k
      · simp [mapLookup, hp]
      · simp [mapLookup, hp, ih, Ne.symm hp]

/-- A present entry of a map with `Nodup` keys is what lookup returns. -/
theorem mapLookup_of_mem_nodup (k : K) (v : α) (l : List (K × α))
    (hnd : (l.map Prod.fst).Nodup) (h : (k, v) ∈ l) :
    mapLookup k l = some v := by
  induction l with
  | nil => simp at h
  | cons p rest ih =>
      simp only [List.map_cons, List.nodup_cons] at hnd
      rcases List.mem_cons.mp h with h | h
      · subst h
        simp [mapLookup]
      · have hk : p.1 ≠ k := by
          intro hh
          exact hnd.1 (hh ▸ (List.mem_map.mpr ⟨(k, v), h, rfl⟩))
        simp [mapLookup, hk, ih hnd.2 h]

/-- Looking up through an entry-wise transformation that keeps keys. -/
theorem mapLookup_map_entries {β : Type} (g : K → α → β) (k : K)
    (l : List (K × α)) :
    mapLookup k (l.map (fun p => (p.1, g p.1 p.2))) =
      (mapLookup k l).map (g k) := by
  induction l with
  | nil => rfl
  | cons p rest ih =>
      by_cases hp : p.1 = k
      · subst hp
        simp [mapLookup]
      · simp [mapLookup, hp, ih]

theorem mapLookup_cons_self (k : K) (v : α) (l : List (K × α)) :
    mapLookup k ((k, v) :: l) = some v := by
  simp [mapLookup]

theorem mapInsert_cons_self (k : K) (v w : α) (l : List (K × α)) :
    mapInsert k v ((k, w) :: l) = (k, v) :: l := by
  simp [mapInsert]

/-- Inserting the same binding twice is the same as inserting it once. -/
theorem mapInsert_insert_same (k : K) (v : α) (l : List (K × α)) :
    mapInsert k v (mapInsert k v l) = mapInsert k v l :=
  mapInsert_self k v _ (mapLookup_insert_self k v l)

/-- An insert leaves at least one entry. -/
theorem one_le_length_mapInsert (k : K) (v : α) (l : List (K × α)) :
    1 ≤ (mapInsert k v l).length := by
  cases l with
  | nil => simp [mapInsert]
  | cons p rest => by_cases hp : p.1 = k <;> simp [mapInsert, hp]

end AssocMapTheorems

/-- Re-putting the identical bytes for the same part is a no-op at the
store. -/
theorem putObjectPart_idem (r : RemoteStore) (uid : String) (pn : Int) (b : Bytes) :
    putObjectPart (putObjectPart r uid pn b) uid pn b = putObjectPart r uid pn b := by
  cases h : mapLookup uid r.uploads with
  | none => simp [putObjectPart, h]
  | some up =>
      simp [putObjectPart, h, mapLookup_insert_self, mapInsert_insert_same]

/-! ## Sweep lemmas (for C4) -/

theorem mapLookup_abortUpload (r : RemoteStore) (uid x : String) :
    mapLookup uid (abortUpload r x).uploads =
      if x = uid then
        (mapLookup uid r.uploads).map (fun up => { up with status := .aborted })
      else mapLookup uid r.uploads := by
  by_cases hx : x = uid
  · subst hx
    cases h : mapLookup x r.uploads with
    | none => simp [abortUpload, h]
    | some up => simp [abortUpload, h, mapLookup_insert_self]
  · cases h : mapLookup x r.uploads with
    | none => simp [abortUpload, h, hx]
    | some up =>
        simp [abortUpload, h, hx, mapLookup_insert_ne _ _ _ _ (Ne.symm hx)]

theorem abortUpload_pres (r : RemoteStore) (uid x : String)
    (h : (mapLookup uid r.uploads).isSome = true) :
    (mapLookup uid (abortUpload r x).uploads).isSome = true := by
  rw [mapLookup_abortUpload]
  by_cases hx : x = uid <;> simp [hx, h]

theorem abortUpload_self (r : RemoteStore) (uid : String)
    (h : (mapLookup uid r.uploads).isSome = true) :
    UploadAborted (abortUpload r uid) uid := by
  rcases Option.isSome_iff_exists.mp h with ⟨u, hu⟩
  exact ⟨{ u with status := .aborted }, by rw [mapLookup_abortUpload]; simp [hu], rfl⟩

theorem abortUpload_keep (r : RemoteStore) (uid x : String)
    (h : UploadAborted r uid) : UploadAborted (abortUpload r x) uid := by
  rcases h with ⟨pr, hpr, hst⟩
  by_cases hx : x = uid
  · exact ⟨{ pr with status := .aborted }, by rw [mapLookup_abortUpload]; simp [hx, hpr], rfl⟩
  · exact ⟨pr, by rw [mapLookup_abortUpload]; simp [hx, hpr], hst⟩

theorem sweepSessions_keep_aborted (now : Int) (l : List (String × ChunkUploadSession))
    (r : RemoteStore) (uid : String) (h : UploadAborted r uid) :
    UploadAborted (sweepSessions now l r).2 uid := by
  induction l generalizing r with
  | nil => exact h
  | cons p rest ih =>
      by_cases hp : maxSessionAge < now - p.2.startTime <;>
        simp [sweepSessions, hp]
      · exact ih _ (abortUpload_keep _ _ _ h)
      · exact ih _ h

theorem sweepSessions_pres_some (now : Int) (l : List (String × ChunkUploadSession))
    (r : RemoteStore) (uid : String) (h : (mapLookup uid r.uploads).isSome = true) :
    (mapLookup uid (sweepSessions now l r).2.uploads).isSome = true := by
  induction l generalizing r with
  | nil => exact h
  | cons p rest ih =>
      by_cases hp : maxSessionAge < now - p.2.startTime <;>
        simp [sweepSessions, hp]
      · exact ih _ (abortUpload_pres _ _ _ h)
      · exact ih _ h

theorem sweepSessions_lookup_none (now : Int) (l : List (String × ChunkUploadSession))
    (r : RemoteStore) (sid : String) (h : mapLookup sid l = none) :
    mapLookup sid (sweepSessions now l r).1 = none := by
  induction l generalizing r with
  | nil => simp [sweepSessions]
  | cons p rest ih =>
      by_cases hk : p.1 = sid
      · simp [mapLookup, hk] at h
      · simp only [mapLookup, hk, if_false] at h
        by_cases hp : maxSessionAge < now - p.2.startTime <;>
          simp [sweepSessions, hp, mapLookup, hk, ih _ h]

theorem sweepSessions_lookup_keep (now : Int) (l : List (String × ChunkUploadSession))
    (r : RemoteStore) (sid : String) (s : ChunkUploadSession)
    (h : mapLookup sid l = some s) (hy : now - s.startTime ≤ maxSessionAge) :
    mapLookup sid (sweepSessions now l r).1 = some s := by
  induction l generalizing r with
  | nil => simp [mapLookup] at h
  | cons p rest ih =>
      by_cases hk : p.1 = sid
      · simp only [mapLookup, hk, if_true] at h
        obtain rfl : p.2 = s := Option.some_inj.mp h
        have hp : ¬ (maxSessionAge < now - p.2.startTime) := not_lt.mpr hy
        simp [sweepSessions, hp, mapLookup, hk]
      · simp only [mapLookup, hk, if_false] at h
        by_cases hp : maxSessionAge < now - p.2.startTime
        · simp only [sweepSessions, hp, if_true]
          exact ih _ h
        · simp only [sweepSessions, hp, if_false]
          simp only [mapLookup, hk, if_false]
          exact ih _ h

theorem sweepSessions_lookup_drop (now : Int) (l : List (String × ChunkUploadSession))
    (r : RemoteStore) (sid : String) (s : ChunkUploadSession)
    (hnd : (l.map Prod.fst).Nodup)
    (h : mapLookup sid l = some s) (hold : maxSessionAge < now - s.startTime) :
    mapLookup sid (sweepSessions now l r).1 = none := by
  induction l generalizing r with
  | nil => simp [mapLookup] at h
  | cons p rest ih =>
      simp only [List.map_cons, List.nodup_cons] at hnd
      by_cases hk : p.1 = sid
      · simp only [mapLookup, hk, if_true] at h
        obtain rfl : p.2 = s := Option.some_inj.mp h
        have hrest : mapLookup sid rest = none := by
          rw [mapLookup_eq_none_iff]
          exact hk ▸ hnd.1
        simp only [sweepSessions, hold, if_true]
        exact sweepSessions_lookup_none _ _ _ _ hrest
      · simp only [mapLookup, hk, if_false] at h
        by_cases hp : maxSessionAge < now - p.2.startTime
        · simp only [sweepSessions, hp, if_true]
          exact ih _ hnd.2 h
        · simp only [sweepSessions, hp, if_false]
          simp only [mapLookup, hk, if_false]
          exact ih _ hnd.2 h

theorem sweepSessions_aborts (now : Int) (l : List (String × ChunkUploadSession))
    (r : RemoteStore) (sid : String) (s : ChunkUploadSession)
    (h : mapLookup sid l = some s) (hold : maxSessionAge < now - s.startTime)
    (hup : (mapLookup s.uploadID r.uploads).isSome = true) :
    UploadAborted (sweepSessions now l r).2 s.uploadID := by
  induction l generalizing r with
  | nil => simp [mapLookup] at h
  | cons p rest ih =>
      by_cases hk : p.1 = sid
      · simp only [mapLookup, hk, if_true] at h
        obtain rfl : p.2 = s := Option.some_inj.mp h
        simp only [sweepSessions, hold, if_true]
        exact sweepSessions_keep_aborted _ _ _ _ (abortUpload_self _ _ hup)
      · simp only [mapLookup, hk, if_false] at h
        by_cases hp : maxSessionAge < now - p.2.startTime
        · simp only [sweepSessions, hp, if_true]
          exact ih _ h (abortUpload_pres _ _ _ hup)
        · simp only [sweepSessions, hp, if_false]
          exact ih _ h hup

/-! ## C4 — expiry sweep (corrected) -/

/-- C4 counterexample: a sweep pass at 25 hours removes and aborts the
25-hour-old remote-multipart session, but the local-staging session —
created at the same moment, though the RClone session struct records no
creation time at all — is left in its registry untouched: the sweep never
scans `uploadSessionsRClone`, so over-age local-staging sessions are never
aborted, contradicting the claim's "of either backing-resource kind". -/
theorem expiry_sweep_misses_local_cx :
    (cleanupPass sweepDemoNow sweepDemoState).rcloneSessions =
      sweepDemoState.rcloneSessions ∧
    sweepDemoState.rcloneSessions ≠ [] ∧
    mapLookup "m1" (cleanupPass sweepDemoNow sweepDemoState).sessions = none ∧
    UploadAborted (cleanupPass sweepDemoNow sweepDemoState).remote "uidm" := by
  refine ⟨rfl, by decide, by decide, ⟨⟨[], .aborted⟩, by decide, rfl⟩⟩

/-- C4 amended: each sweep pass acts on the remote-multipart registry only.
There it is exact: a registered session strictly older than the 24-hour
maximum age is removed and its backing upload is aborted at the store,
while a session of age at most the maximum survives unchanged.  The
local-staging registry and the local files are never touched by a sweep
(RClone sessions record no creation time and are never expired). -/
theorem expiry_sweep_remote_exact
    (st : ServerState) (now : Int) (sid : String) (s : ChunkUploadSession)
    (hnd : (st.sessions.map Prod.fst).Nodup)
    (hs : mapLookup sid st.sessions = some s) :
    (now - s.startTime ≤ maxSessionAge →
      mapLookup sid (cleanupPass now st).sessions = some s) ∧
    (maxSessionAge < now - s.startTime →
      mapLookup sid (cleanupPass now st).sessions = none ∧
      ((mapLookup s.uploadID st.remote.uploads).isSome = true →
        UploadAborted (cleanupPass now st).remote s.uploadID)) ∧
    (cleanupPass now st).rcloneSessions = st.rcloneSessions ∧
    (cleanupPass now st).localFiles = st.localFiles := by
  refine ⟨fun hy => ?_, fun hold => ⟨?_, fun hup => ?_⟩, rfl, rfl⟩
  · exact sweepSessions_lookup_keep now st.sessions st.remote sid s hs hy
  · exact sweepSessions_lookup_drop now st.sessions st.remote sid s hnd hs hold
  · exact sweepSessions_aborts now st.sessions st.remote sid s hs hold hup

/-- C4 amended witness at a concrete input (the 25-hour-old remote session
of `sweepDemoState`). -/
theorem expiry_sweep_remote_exact_witness :
    ((sweepDemoState.sessions.map Prod.fst).Nodup ∧
      mapLookup "m1" sweepDemoState.sessions =
        some { uploadID := "uidm", fileName := "a.bin", totalParts := 3,
               uploadedParts := [], startTime := 0 }) ∧
    ((sweepDemoNow - (0 : Int) ≤ maxSessionAge →
        mapLookup "m1" (cleanupPass sweepDemoNow sweepDemoState).sessions =
          some { uploadID := "uidm", fileName := "a.bin", totalParts := 3,
                 uploadedParts := [], startTime := 0 }) ∧
      (maxSessionAge < sweepDemoNow - (0 : Int) →
        mapLookup "m1" (cleanupPass sweepDemoNow sweepDemoState).sessions = none ∧
        ((mapLookup "uidm" sweepDemoState.remote.uploads).isSome = true →
          UploadAborted (cleanupPass sweepDemoNow sweepDemoState).remote "uidm")) ∧
      (cleanupPass sweepDemoNow sweepDemoState).rcloneSessions =
        sweepDemoState.rcloneSessions ∧
      (cleanupPass sweepDemoNow sweepDemoState).localFiles =
        sweepDemoState.localFiles) :=
  ⟨⟨by decide, rfl⟩,
    expiry_sweep_remote_exact sweepDemoState sweepDemoNow "m1"
      { uploadID := "uidm", fileName := "a.bin", totalParts := 3,
        uploadedParts := [], startTime := 0 }
      (by decide) rfl⟩

/-! ## C6 — terminal states are absorbing -/

/-- C6: once a session identifier is absent from the registries (as after
completion, explicit abort, or expiry), every subsequent chunk upload and
every subsequent abort for that identifier returns the session-not-found
response and leaves the entire server state unchanged, on both the
remote-part and the local-staging variants. -/
theorem terminal_sessions_absorbing
    (st : ServerState) (sid : String) (pn : Int) (chunk written : Bytes)
    (putOk completeOk copyErr finalizeOk : Bool)
    (hsid : sid ≠ "")
    (hremote : mapLookup sid st.sessions = none)
    (hlocal : mapLookup sid st.rcloneSessions = none) :
    uploadChunkHandler st sid pn chunk putOk completeOk = (st, .sessionNotFound) ∧
    abortMultipartHandler st sid = (st, .sessionNotFound) ∧
    uploadChunkHandlerRClone st sid pn written copyErr finalizeOk =
      (st, .sessionNotFound) ∧
    abortMultipartHandlerRClone st sid = (st, .sessionNotFound) := by
  refine ⟨?_, ?_, ?_, ?_⟩ <;>
    simp [uploadChunkHandler, abortMultipartHandler, uploadChunkHandlerRClone,
      abortMultipartHandlerRClone, hremote, hlocal, hsid]

/-- C6 witness at a concrete input. -/
theorem terminal_sessions_absorbing_witness :
    (("gone" : String) ≠ "" ∧
      mapLookup "gone" (ServerState.mk [] [] ⟨[]⟩ []).sessions = none ∧
      mapLookup "gone" (ServerState.mk [] [] ⟨[]⟩ []).rcloneSessions = none) ∧
    (uploadChunkHandler (ServerState.mk [] [] ⟨[]⟩ []) "gone" 1 [7] true true =
        (ServerState.mk [] [] ⟨[]⟩ [], .sessionNotFound) ∧
      abortMultipartHandler (ServerState.mk [] [] ⟨[]⟩ []) "gone" =
        (ServerState.mk [] [] ⟨[]⟩ [], .sessionNotFound) ∧
      uploadChunkHandlerRClone (ServerState.mk [] [] ⟨[]⟩ []) "gone" 1 [7] false true =
        (ServerState.mk [] [] ⟨[]⟩ [], .sessionNotFound) ∧
      abortMultipartHandlerRClone (ServerState.mk [] [] ⟨[]⟩ []) "gone" =
        (ServerState.mk [] [] ⟨[]⟩ [], .sessionNotFound)) :=
  ⟨⟨by decide, rfl, rfl⟩,
    terminal_sessions_absorbing (ServerState.mk [] [] ⟨[]⟩ []) "gone" 1 [7] [7]
      true true false true (by decide) rfl rfl⟩

/-! ## C7 — finalize failure preserves the session -/

/-- C7: on the chunk that makes the received count reach `totalParts`, if
the finalize step fails (the store's complete-multipart call on the remote
path; closing/moving the staging file on the local path) the handler reports
the finalize failure and the session is still in its registry (holding the
newly recorded part); the session is deleted exactly when finalize
succeeds. -/
theorem finalize_failure_preserves_session
    (st : ServerState) (sid : String) (pn : Int) (chunk written : Bytes)
    (s : ChunkUploadSession) (rs : ChunkUploadSessionRClone)
    (hs : mapLookup sid st.sessions = some s)
    (hfull : ((mapInsert pn (⟨pn, etagOf chunk⟩ : CompletePart) s.uploadedParts).length : Int)
        = s.totalParts)
    (hrs : mapLookup sid st.rcloneSessions = some rs)
    (hrfull : ((mapInsert pn true rs.receivedParts).length : Int) = rs.totalParts) :
    ((uploadChunkHandler st sid pn chunk true false).2 = .finalizeFailure ∧
      mapLookup sid (uploadChunkHandler st sid pn chunk true false).1.sessions =
        some { s with uploadedParts := mapInsert pn ⟨pn, etagOf chunk⟩ s.uploadedParts } ∧
      (uploadChunkHandler st sid pn chunk true true).2 = .completed ∧
      mapLookup sid (uploadChunkHandler st sid pn chunk true true).1.sessions = none) ∧
    ((uploadChunkHandlerRClone st sid pn written false false).2 = .finalizeFailure ∧
      mapLookup sid
          (uploadChunkHandlerRClone st sid pn written false false).1.rcloneSessions =
        some { rs with tempContent := rs.tempContent ++ written,
                       receivedParts := mapInsert pn true rs.receivedParts } ∧
      (uploadChunkHandlerRClone st sid pn written false true).2 = .completed ∧
      mapLookup sid
          (uploadChunkHandlerRClone st sid pn written false true).1.rcloneSessions =
        none) := by
  refine ⟨⟨?_, ?_, ?_, ?_⟩, ⟨?_, ?_, ?_, ?_⟩⟩ <;>
    simp [uploadChunkHandler, uploadChunkHandlerRClone, completeMultipartUpload,
      hs, hrs, hfull, hrfull, mapLookup_insert_self, mapLookup_delete_self]

/-- C7 witness at a concrete input. -/
theorem finalize_failure_preserves_session_witness :
    (mapLookup "p1" pairDemoState.sessions =
        some { uploadID := "uidp", fileName := "c.bin", totalParts := 1,
               uploadedParts := [], startTime := 0 } ∧
      mapLookup "p1" pairDemoState.rcloneSessions =
        some { sessionID := "p1", fileName := "c.bin", filePath := "/mnt/c.bin",
               tempContent := [], totalParts := 1, receivedParts := [] }) ∧
    ((uploadChunkHandler pairDemoState "p1" 1 [9] true false).2 = .finalizeFailure ∧
      mapLookup "p1" (uploadChunkHandler pairDemoState "p1" 1 [9] true false).1.sessions =
        some { uploadID := "uidp", fileName := "c.bin", totalParts := 1,
               uploadedParts := mapInsert 1 ⟨1, etagOf [9]⟩ [], startTime := 0 } ∧
      (uploadChunkHandler pairDemoState "p1" 1 [9] true true).2 = .completed ∧
      mapLookup "p1" (uploadChunkHandler pairDemoState "p1" 1 [9] true true).1.sessions =
        none) ∧
    ((uploadChunkHandlerRClone pairDemoState "p1" 1 [9] false false).2 = .finalizeFailure ∧
      mapLookup "p1"
          (uploadChunkHandlerRClone pairDemoState "p1" 1 [9] false false).1.rcloneSessions =
        some { sessionID := "p1", fileName := "c.bin", filePath := "/mnt/c.bin",
               tempContent := [] ++ [9], totalParts := 1,
               receivedParts := mapInsert 1 true [] } ∧
      (uploadChunkHandlerRClone pairDemoState "p1" 1 [9] false true).2 = .completed ∧
      mapLookup "p1"
          (uploadChunkHandlerRClone pairDemoState "p1" 1 [9] false true).1.rcloneSessions =
        none) :=
  ⟨⟨rfl, rfl⟩,
    finalize_failure_preserves_session pairDemoState "p1" 1 [9] [9]
      { uploadID := "uidp", fileName := "c.bin", totalParts := 1,
        uploadedParts := [], startTime := 0 }
      { sessionID := "p1", fileName := "c.bin", filePath := "/mnt/c.bin",
        tempContent := [], totalParts := 1, receivedParts := [] }
      rfl (by decide) rfl (by decide)⟩

/-! ## C2 — bookkeeping on chunk-persist failure (corrected) -/

/-- C2 counterexample: on the local-staging path a failed chunk write still
records the part.  In `localDemoState` (3 expected parts, none received),
uploading part 1 with a failing `io.Copy` answers with the persist-failure
response, yet the session's `receivedParts` now contains part 1 — the
bookkeeping did not stay unchanged as the claim states. -/
theorem chunk_persist_failure_local_mutates_cx :
    (uploadChunkHandlerRClone localDemoState "r1" 1 [] true true).2 =
        .chunkPersistFailure ∧
    mapLookup "r1"
        (uploadChunkHandlerRClone localDemoState "r1" 1 [] true true).1.rcloneSessions =
      some { sessionID := "r1", fileName := "b.bin", filePath := "/mnt/b.bin",
             tempContent := [], totalParts := 3, receivedParts := [(1, true)] } ∧
    mapLookup "r1" localDemoState.rcloneSessions =
      some { sessionID := "r1", fileName := "b.bin", filePath := "/mnt/b.bin",
             tempContent := [], totalParts := 3, receivedParts := [] } := by
  decide

/-- C2 amended: on the remote-part path a chunk-persist failure leaves the
whole server state unchanged (the part is not recorded and the client can
retry); on the local-staging path the handler still answers with the
persist-failure response, but the part number *is* recorded before the
error is checked — `receivedParts` gains the part and `receivedCount`
increases — and whatever the failed copy wrote stays appended to the
staging file. -/
theorem chunk_persist_failure_bookkeeping
    (st : ServerState) (sid : String) (pn : Int) (chunk written : Bytes)
    (completeOk finalizeOk : Bool)
    (s : ChunkUploadSession) (rs : ChunkUploadSessionRClone)
    (hs : mapLookup sid st.sessions = some s)
    (hrs : mapLookup sid st.rcloneSessions = some rs)
    (hfresh : mapLookup pn rs.receivedParts = none) :
    uploadChunkHandler st sid pn chunk false completeOk = (st, .chunkPersistFailure) ∧
    ((uploadChunkHandlerRClone st sid pn written true finalizeOk).2 =
        .chunkPersistFailure ∧
      mapLookup sid
          (uploadChunkHandlerRClone st sid pn written true finalizeOk).1.rcloneSessions =
        some { rs with tempContent := rs.tempContent ++ written,
                       receivedParts := mapInsert pn true rs.receivedParts } ∧
      mapLookup pn (mapInsert pn true rs.receivedParts) = some true ∧
      (mapInsert pn true rs.receivedParts).length = rs.receivedParts.length + 1) := by
  refine ⟨?_, ?_, ?_, ?_, ?_⟩ <;>
    simp [uploadChunkHandler, uploadChunkHandlerRClone, hs, hrs,
      mapLookup_insert_self, length_mapInsert_of_not_mem _ _ _ hfresh]

/-- C2 amended witness at a concrete input. -/
theorem chunk_persist_failure_bookkeeping_witness :
    (mapLookup "p1" pairDemoState.sessions =
        some { uploadID := "uidp", fileName := "c.bin", totalParts := 1,
               uploadedParts := [], startTime := 0 } ∧
      mapLookup "p1" pairDemoState.rcloneSessions =
        some { sessionID := "p1", fileName := "c.bin", filePath := "/mnt/c.bin",
               tempContent := [], totalParts := 1, receivedParts := [] } ∧
      mapLookup 1 ([] : List (Int × Bool)) = none) ∧
    (uploadChunkHandler pairDemoState "p1" 1 [4] false true =
        (pairDemoState, .chunkPersistFailure) ∧
      ((uploadChunkHandlerRClone pairDemoState "p1" 1 [4] true true).2 =
          .chunkPersistFailure ∧
        mapLookup "p1"
            (uploadChunkHandlerRClone pairDemoState "p1" 1 [4] true true).1.rcloneSessions =
          some { sessionID := "p1", fileName := "c.bin", filePath := "/mnt/c.bin",
                 tempContent := [] ++ [4], totalParts := 1,
                 receivedParts := mapInsert 1 true [] } ∧
        mapLookup 1 (mapInsert 1 true ([] : List (Int × Bool))) = some true ∧
        (mapInsert 1 true ([] : List (Int × Bool))).length =
          ([] : List (Int × Bool)).length + 1)) :=
  ⟨⟨rfl, rfl, rfl⟩,
    chunk_persist_failure_bookkeeping pairDemoState "p1" 1 [4] [4] true true
      { uploadID := "uidp", fileName := "c.bin", totalParts := 1,
        uploadedParts := [], startTime := 0 }
      { sessionID := "p1", fileName := "c.bin", filePath := "/mnt/c.bin",
        tempContent := [], totalParts := 1, receivedParts := [] }
      rfl rfl rfl⟩

/-! ## C3 — completion is not guarded by the contiguous part set -/

/-- C3, evaluated at the failing input: with a session expecting
`totalParts = 2`, uploading parts 2 and 3 — part numbers that are *not* the
set {1, 2} — nevertheless triggers completion: the run produces exactly one
completed response, the session is removed, and the store's completed
object consists of part 2's bytes alone (length 2, not the 3 uploaded
bytes).  The validation the claim requires is absent from the code. -/
theorem completion_without_contiguous_parts :
    ((runChunks "sess1" gapDemoState [(2, [10, 11]), (3, [12])]).2).count .completed = 1 ∧
    mapLookup "sess1"
        (runChunks "sess1" gapDemoState [(2, [10, 11]), (3, [12])]).1.sessions = none ∧
    mapLookup "uid1"
        (runChunks "sess1" gapDemoState [(2, [10, 11]), (3, [12])]).1.remote.uploads =
      some { parts := [(2, [10, 11]), (3, [12])], status := .completed [10, 11] } := by
  decide

/-! ## C8 — remote-path retry idempotence -/

/-- C8: re-uploading a part number already recorded in a remote-path
session before completion overwrites the stored completion tag, leaves the
received count unchanged (the handler reports the same progress), and a
second identical retry reproduces the state and response of the first
exactly — so whichever of two identical retries wins, the session state,
and hence any later assembled object, is the same. -/
theorem remote_retry_idempotent
    (st : ServerState) (sid : String) (pn : Int) (b : Bytes)
    (s : ChunkUploadSession) (old : CompletePart)
    (hs : mapLookup sid st.sessions = some s)
    (hold : mapLookup pn s.uploadedParts = some old)
    (hnotlast : (s.uploadedParts.length : Int) ≠ s.totalParts) :
    ((mapInsert pn (⟨pn, etagOf b⟩ : CompletePart) s.uploadedParts).length =
        s.uploadedParts.length) ∧
    mapLookup pn (mapInsert pn (⟨pn, etagOf b⟩ : CompletePart) s.uploadedParts) =
      some ⟨pn, etagOf b⟩ ∧
    (uploadChunkHandler st sid pn b true true).2 =
      .progressResp (((s.uploadedParts.length : Int) : ℚ) / (s.totalParts : ℚ) * 100) ∧
    uploadChunkHandler (uploadChunkHandler st sid pn b true true).1 sid pn b true true =
      uploadChunkHandler st sid pn b true true := by
  have hlen : (mapInsert pn (⟨pn, etagOf b⟩ : CompletePart) s.uploadedParts).length =
      s.uploadedParts.length := length_mapInsert_of_mem _ _ _ _ hold
  have hcond : ¬ (((mapInsert pn (⟨pn, etagOf b⟩ : CompletePart) s.uploadedParts).length : Int)
      = s.totalParts) := by
    rw [hlen]; exact hnotlast
  refine ⟨hlen, mapLookup_insert_self _ _ _, ?_, ?_⟩
  · simp [uploadChunkHandler, hs, hcond, hlen, hnotlast]
  · simp [uploadChunkHandler, hs, hcond, hlen, hnotlast, mapLookup_insert_self,
      mapInsert_insert_same, putObjectPart_idem]

/-- C8 witness at a concrete input: a 3-part session that already holds
part 1 receives part 1 again. -/
theorem remote_retry_idempotent_witness :
    (mapLookup "sess1" (c5SessionState "sess1" "uid1" "big.bin" 3 [(1, [5])]).sessions =
        some { uploadID := "uid1", fileName := "big.bin", totalParts := 3,
               uploadedParts := [(1, ⟨1, etagOf [5]⟩)], startTime := 0 } ∧
      mapLookup 1 [((1 : Int), (⟨1, etagOf [5]⟩ : CompletePart))] = some ⟨1, etagOf [5]⟩ ∧
      (([((1 : Int), (⟨1, etagOf [5]⟩ : CompletePart))].length : Int) ≠ 3)) ∧
    (((mapInsert 1 (⟨1, etagOf [5]⟩ : CompletePart) [((1 : Int), (⟨1, etagOf [5]⟩ : CompletePart))]).length =
        [((1 : Int), (⟨1, etagOf [5]⟩ : CompletePart))].length) ∧
      mapLookup 1 (mapInsert 1 (⟨1, etagOf [5]⟩ : CompletePart)
          [((1 : Int), (⟨1, etagOf [5]⟩ : CompletePart))]) = some ⟨1, etagOf [5]⟩ ∧
      (uploadChunkHandler (c5SessionState "sess1" "uid1" "big.bin" 3 [(1, [5])])
          "sess1" 1 [5] true true).2 =
        .progressResp ((([((1 : Int), (⟨1, etagOf [5]⟩ : CompletePart))].length : Int) : ℚ) /
          ((3 : Int) : ℚ) * 100) ∧
      uploadChunkHandler
          (uploadChunkHandler (c5SessionState "sess1" "uid1" "big.bin" 3 [(1, [5])])
            "sess1" 1 [5] true true).1 "sess1" 1 [5] true true =
        uploadChunkHandler (c5SessionState "sess1" "uid1" "big.bin" 3 [(1, [5])])
          "sess1" 1 [5] true true) :=
  ⟨⟨rfl, rfl, by decide⟩,
    remote_retry_idempotent (c5SessionState "sess1" "uid1" "big.bin" 3 [(1, [5])])
      "sess1" 1 [5]
      { uploadID := "uid1", fileName := "big.bin", totalParts := 3,
        uploadedParts := [(1, ⟨1, etagOf [5]⟩)], startTime := 0 }
      ⟨1, etagOf [5]⟩ rfl rfl (by decide)⟩

/-! ## C9 — local staging appends; duplicates accumulate -/

/-- C9: on the local-staging path an accepted chunk's bytes are appended at
the current end of the staging file whatever its part number; re-uploading
an already-received part appends its bytes again while `receivedCount`
stays the same (the file grows by exactly the chunk's length, strictly if
the chunk is non-empty), and if that duplicate is the chunk on which the
count reaches `totalParts`, the finalized object is the staging content
with the duplicated bytes included. -/
theorem local_staging_append_duplicates
    (st : ServerState) (sid : String) (pn : Int) (chunk : Bytes) (finalizeOk : Bool)
    (rs : ChunkUploadSessionRClone)
    (hrs : mapLookup sid st.rcloneSessions = some rs)
    (hdup : mapLookup pn rs.receivedParts = some true) :
    ((mapInsert pn true rs.receivedParts).length = rs.receivedParts.length) ∧
    ((rs.tempContent ++ chunk).length = rs.tempContent.length + chunk.length) ∧
    (chunk ≠ [] → rs.tempContent.length < (rs.tempContent ++ chunk).length) ∧
    ((rs.receivedParts.length : Int) ≠ rs.totalParts →
      (uploadChunkHandlerRClone st sid pn chunk false finalizeOk).2 =
        .progressResp (((rs.receivedParts.length : Int) : ℚ) / (rs.totalParts : ℚ) * 100) ∧
      mapLookup sid
          (uploadChunkHandlerRClone st sid pn chunk false finalizeOk).1.rcloneSessions =
        some { rs with tempContent := rs.tempContent ++ chunk,
                       receivedParts := mapInsert pn true rs.receivedParts }) ∧
    ((rs.receivedParts.length : Int) = rs.totalParts →
      (uploadChunkHandlerRClone st sid pn chunk false true).2 = .completed ∧
      mapLookup rs.filePath
          (uploadChunkHandlerRClone st sid pn chunk false true).1.localFiles =
        some (rs.tempContent ++ chunk)) := by
  have hlen : (mapInsert pn true rs.receivedParts).length = rs.receivedParts.length :=
    length_mapInsert_of_mem _ _ _ _ hdup
  refine ⟨hlen, by simp, ?_, ?_, ?_⟩
  · intro hne
    have : 0 < chunk.length := List.length_pos.mpr hne
    simp
    omega
  · intro hnot
    have hcond : ¬ (((mapInsert pn true rs.receivedParts).length : Int) = rs.totalParts) := by
      rw [hlen]; exact hnot
    constructor <;>
      simp [uploadChunkHandlerRClone, hrs, hcond, hlen, hnot, mapLookup_insert_self]
  · intro hfull
    have hcond : ((mapInsert pn true rs.receivedParts).length : Int) = rs.totalParts := by
      rw [hlen]; exact hfull
    constructor <;>
      simp [uploadChunkHandlerRClone, hrs, hcond, hlen, hfull, mapLookup_insert_self]

/-- C9 witness at a concrete input: part 1 of `dupDemoState` is uploaded a
second time. -/
theorem local_staging_append_duplicates_witness :
    (mapLookup "d1" dupDemoState.rcloneSessions =
        some { sessionID := "d1", fileName := "d.bin", filePath := "/mnt/d.bin",
               tempContent := [1, 2], totalParts := 2, receivedParts := [(1, true)] } ∧
      mapLookup 1 [((1 : Int), true)] = some true) ∧
    (((mapInsert 1 true [((1 : Int), true)]).length = [((1 : Int), true)].length) ∧
      (([1, 2] ++ [9] : Bytes).length = ([1, 2] : Bytes).length + ([9] : Bytes).length) ∧
      (([9] : Bytes) ≠ [] → ([1, 2] : Bytes).length < ([1, 2] ++ [9] : Bytes).length) ∧
      ((([((1 : Int), true)].length : Int) ≠ 2 →
        (uploadChunkHandlerRClone dupDemoState "d1" 1 [9] false true).2 =
          .progressResp ((([((1 : Int), true)].length : Int) : ℚ) / ((2 : Int) : ℚ) * 100) ∧
        mapLookup "d1"
            (uploadChunkHandlerRClone dupDemoState "d1" 1 [9] false true).1.rcloneSessions =
          some { sessionID := "d1", fileName := "d.bin", filePath := "/mnt/d.bin",
                 tempContent := [1, 2] ++ [9], totalParts := 2,
                 receivedParts := mapInsert 1 true [((1 : Int), true)] }) ∧
      (([((1 : Int), true)].length : Int) = 2 →
        (uploadChunkHandlerRClone dupDemoState "d1" 1 [9] false true).2 = .completed ∧
        mapLookup "/mnt/d.bin"
            (uploadChunkHandlerRClone dupDemoState "d1" 1 [9] false true).1.localFiles =
          some ([1, 2] ++ [9])))) :=
  ⟨⟨rfl, rfl⟩,
    local_staging_append_duplicates dupDemoState "d1" 1 [9] true
      { sessionID := "d1", fileName := "d.bin", filePath := "/mnt/d.bin",
        tempContent := [1, 2], totalParts := 2, receivedParts := [(1, true)] }
      rfl rfl⟩

/-! ## C10 — totalParts is never validated at initiation -/

/-- C10: both initiation handlers accept every integer `totalParts`
(including zero and negatives) and create a live session with its backing
resource; and for a session whose `totalParts` is non-positive, any
successful chunk upload records a count of at least 1, so the equality
completion check can never fire: the handler always answers with the
progress response computed by dividing by that non-positive `totalParts`,
and the session stays live. -/
theorem total_parts_unvalidated
    (st0 st stR : ServerState) (sid0 sid uid key tpath fname : String)
    (t now pn : Int) (chunk written : Bytes) (completeOk : Bool)
    (s : ChunkUploadSession) (rs : ChunkUploadSessionRClone)
    (hs : mapLookup sid st.sessions = some s)
    (ht : s.totalParts ≤ 0)
    (hrs : mapLookup sid stR.rcloneSessions = some rs)
    (htr : rs.totalParts ≤ 0) :
    (mapLookup sid0 (initiateMultipartHandler st0 sid0 uid key t now true).1.sessions =
        some { uploadID := uid, fileName := key, totalParts := t,
               uploadedParts := [], startTime := now } ∧
      mapLookup uid (initiateMultipartHandler st0 sid0 uid key t now true).1.remote.uploads =
        some { parts := [], status := .active } ∧
      (initiateMultipartHandler st0 sid0 uid key t now true).2 = .initiated sid0) ∧
    (mapLookup sid0
        (initiateMultipartHandlerRClone st0 sid0 tpath fname t true).1.rcloneSessions =
        some { sessionID := sid0, fileName := fname, filePath := tpath,
               tempContent := [], totalParts := t, receivedParts := [] } ∧
      (initiateMultipartHandlerRClone st0 sid0 tpath fname t true).2 = .initiated sid0) ∧
    ((uploadChunkHandler st sid pn chunk true completeOk).2 =
        .progressResp
          ((((mapInsert pn (⟨pn, etagOf chunk⟩ : CompletePart) s.uploadedParts).length : Int) : ℚ) /
            (s.totalParts : ℚ) * 100) ∧
      mapLookup sid (uploadChunkHandler st sid pn chunk true completeOk).1.sessions =
        some { s with uploadedParts := mapInsert pn ⟨pn, etagOf chunk⟩ s.uploadedParts }) ∧
    ((uploadChunkHandlerRClone stR sid pn written false true).2 =
        .progressResp
          ((((mapInsert pn true rs.receivedParts).length : Int) : ℚ) /
            (rs.totalParts : ℚ) * 100) ∧
      mapLookup sid (uploadChunkHandlerRClone stR sid pn written false true).1.rcloneSessions =
        some { rs with tempContent := rs.tempContent ++ written,
                       receivedParts := mapInsert pn true rs.receivedParts }) := by
  have h1 : (1 : Int) ≤
      ((mapInsert pn (⟨pn, etagOf chunk⟩ : CompletePart) s.uploadedParts).length : Int) := by
    exact_mod_cast one_le_length_mapInsert pn _ s.uploadedParts
  have h2 : (1 : Int) ≤ ((mapInsert pn true rs.receivedParts).length : Int) := by
    exact_mod_cast one_le_length_mapInsert pn true rs.receivedParts
  have hcond : ¬ (((mapInsert pn (⟨pn, etagOf chunk⟩ : CompletePart) s.uploadedParts).length : Int)
      = s.totalParts) := by omega
  have hcondR : ¬ (((mapInsert pn true rs.receivedParts).length : Int) = rs.totalParts) := by
    omega
  refine ⟨⟨?_, ?_, ?_⟩, ⟨?_, ?_⟩, ⟨?_, ?_⟩, ⟨?_, ?_⟩⟩ <;>
    simp [initiateMultipartHandler, initiateMultipartHandlerRClone, newMultipartUpload,
      uploadChunkHandler, uploadChunkHandlerRClone, hs, hrs, hcond, hcondR,
      mapLookup_insert_self]

/-- C10 witness at a concrete input: `totalParts = 0` at initiation, and
chunk uploads against sessions declared with `totalParts = -2` (remote) and
`totalParts = 0` (local). -/
theorem total_parts_unvalidated_witness :
    (mapLookup "n1" negDemoState.sessions =
        some { uploadID := "uidn", fileName := "n.bin", totalParts := -2,
               uploadedParts := [], startTime := 0 } ∧
      ((-2 : Int) ≤ 0) ∧
      mapLookup "n1" negDemoState.rcloneSessions =
        some { sessionID := "n1", fileName := "n.bin", filePath := "/mnt/n.bin",
               tempContent := [], totalParts := 0, receivedParts := [] } ∧
      ((0 : Int) ≤ 0)) ∧
    ((mapLookup "f1" (initiateMultipartHandler (ServerState.mk [] [] ⟨[]⟩ []) "f1" "uidf"
          "f.bin" 0 7 true).1.sessions =
        some { uploadID := "uidf", fileName := "f.bin", totalParts := 0,
               uploadedParts := [], startTime := 7 } ∧
      mapLookup "uidf" (initiateMultipartHandler (ServerState.mk [] [] ⟨[]⟩ []) "f1" "uidf"
          "f.bin" 0 7 true).1.remote.uploads = some { parts := [], status := .active } ∧
      (initiateMultipartHandler (ServerState.mk [] [] ⟨[]⟩ []) "f1" "uidf"
          "f.bin" 0 7 true).2 = .initiated "f1") ∧
    (mapLookup "f1" (initiateMultipartHandlerRClone (ServerState.mk [] [] ⟨[]⟩ []) "f1"
          "/mnt/f.bin" "f.bin" 0 true).1.rcloneSessions =
        some { sessionID := "f1", fileName := "f.bin", filePath := "/mnt/f.bin",
               tempContent := [], totalParts := 0, receivedParts := [] } ∧
      (initiateMultipartHandlerRClone (ServerState.mk [] [] ⟨[]⟩ []) "f1"
          "/mnt/f.bin" "f.bin" 0 true).2 = .initiated "f1") ∧
    ((uploadChunkHandler negDemoState "n1" 1 [3] true true).2 =
        .progressResp
          ((((mapInsert 1 (⟨1, etagOf [3]⟩ : CompletePart) []).length : Int) : ℚ) /
            ((-2 : Int) : ℚ) * 100) ∧
      mapLookup "n1" (uploadChunkHandler negDemoState "n1" 1 [3] true true).1.sessions =
        some { uploadID := "uidn", fileName := "n.bin", totalParts := -2,
               uploadedParts := mapInsert 1 ⟨1, etagOf [3]⟩ [], startTime := 0 }) ∧
    ((uploadChunkHandlerRClone negDemoState "n1" 1 [3] false true).2 =
        .progressResp
          ((((mapInsert 1 true []).length : Int) : ℚ) / ((0 : Int) : ℚ) * 100) ∧
      mapLookup "n1"
          (uploadChunkHandlerRClone negDemoState "n1" 1 [3] false true).1.rcloneSessions =
        some { sessionID := "n1", fileName := "n.bin", filePath := "/mnt/n.bin",
               tempContent := [] ++ [3], totalParts := 0,
               receivedParts := mapInsert 1 true [] })) :=
  ⟨⟨rfl, by decide, rfl, by decide⟩,
    total_parts_unvalidated (ServerState.mk [] [] ⟨[]⟩ []) negDemoState negDemoState
      "f1" "n1" "uidf" "f.bin" "/mnt/f.bin" "f.bin" 0 7 1 [3] [3] true
      { uploadID := "uidn", fileName := "n.bin", totalParts := -2,
        uploadedParts := [], startTime := 0 }
      { sessionID := "n1", fileName := "n.bin", filePath := "/mnt/n.bin",
        tempContent := [], totalParts := 0, receivedParts := [] }
      rfl (by decide) rfl (by decide)⟩

/-! ## C5 — order-independent assembly on the remote path -/

theorem intRange_length (n : Nat) : (intRange n).length = n := by
  rw [intRange, List.length_map, List.length_range]

theorem intRange_nodup (n : Nat) : (intRange n).Nodup := by
  rw [intRange]
  refine List.Nodup.map ?_ (List.nodup_range n)
  intro i j h
  have h' : (i : Int) + 1 = (j : Int) + 1 := h
  omega

theorem mem_intRange (n i : Nat) (h : i < n) : ((i : Int) + 1) ∈ intRange n := by
  rw [intRange]
  exact List.mem_map.mpr ⟨i, List.mem_range.mpr h, rfl⟩

theorem filterMap_eq_map_of_some {α β : Type} (f : α → Option β) (g : α → β)
    (l : List α) (h : ∀ x ∈ l, f x = some (g x)) :
    l.filterMap f = l.map g := by
  induction l with
  | nil => rfl
  | cons a rest ih =>
      rw [List.filterMap_cons, h a (by simp), List.map_cons,
        ih (fun x hx => h x (by simp [hx]))]

theorem mapLookup_exists_of_mem_keys {K : Type} [DecidableEq K] {α : Type}
    (k : K) (l : List (K × α)) (h : k ∈ l.map Prod.fst) :
    ∃ v, mapLookup k l = some v := by
  cases hv : mapLookup k l with
  | none => exact absurd h ((mapLookup_eq_none_iff _ _).mp hv)
  | some v => exact ⟨v, rfl⟩

/-- The tag list `completeMultipartUpload` gathers from the canonical full
session: the tags of parts `1..n`, in part-number order. -/
theorem c5_tags (uid key : String) (n : Nat) (full : List (Int × Bytes))
    (hperm : (full.map Prod.fst).Perm (intRange n)) :
    (List.range (c5Session uid key (n : Int) full).totalParts.toNat).filterMap
        (fun i : Nat =>
          mapLookup ((i : Int) + 1) (c5Session uid key (n : Int) full).uploadedParts) =
      (List.range n).map
        (fun i : Nat =>
          (⟨(i : Int) + 1, etagOf ((mapLookup ((i : Int) + 1) full).getD [])⟩ :
            CompletePart)) := by
  have htot : (c5Session uid key (n : Int) full).totalParts.toNat = n := by
    simp [c5Session]
  rw [htot]
  apply filterMap_eq_map_of_some
  intro i hi
  have hmem : ((i : Int) + 1) ∈ full.map Prod.fst :=
    hperm.mem_iff.mpr (mem_intRange n i (List.mem_range.mp hi))
  obtain ⟨c, hc⟩ := mapLookup_exists_of_mem_keys _ _ hmem
  simp only [c5Session]
  rw [mapLookup_map_entries (fun k c => (⟨k, etagOf c⟩ : CompletePart)), hc]
  simp

/-- Finalizing the canonical full session succeeds, deletes the session,
and completes the store object as `c5Obj`. -/
theorem c5_finalize (sid uid key : String) (n : Nat) (full : List (Int × Bytes))
    (hperm : (full.map Prod.fst).Perm (intRange n)) :
    completeMultipartUpload (c5SessionState sid uid key (n : Int) full) sid
        (c5Session uid key (n : Int) full) true =
      ({ sessions := [], rcloneSessions := [],
         remote := { uploads := [(uid,
           { parts := full, status := .completed (c5Obj n full) })] },
         localFiles := [] }, .completed) := by
  simp only [completeMultipartUpload, c5SessionState]
  rw [c5_tags uid key n full hperm]
  have huidp : (c5Session uid key (n : Int) full).uploadID = uid := rfl
  rw [huidp]
  simp only [completeUpload]
  rw [mapLookup_cons_self]
  simp only [mapInsert_cons_self, assemble, c5Obj, List.map_map]
  simp [mapDelete, mapLookup, Function.comp]
  rfl

/-- The assembled object's length is the sum of the chunk lengths. -/
theorem c5_obj_length (n : Nat) (full : List (Int × Bytes))
    (hperm : (full.map Prod.fst).Perm (intRange n)) :
    (c5Obj n full).length = (full.map (fun e => e.2.length)).sum := by
  have hnd : (full.map Prod.fst).Nodup := hperm.nodup_iff.mpr (intRange_nodup n)
  rw [c5Obj, List.length_flatten, List.map_map]
  have h1 : (List.range n).map
      (List.length ∘ fun i : Nat => (mapLookup ((i : Int) + 1) full).getD []) =
      (intRange n).map (fun j : Int => ((mapLookup j full).getD []).length) := by
    rw [intRange, List.map_map]
    rfl
  rw [h1]
  have h2 : ((intRange n).map (fun j : Int => ((mapLookup j full).getD []).length)).sum =
      ((full.map Prod.fst).map (fun j : Int => ((mapLookup j full).getD []).length)).sum :=
    ((hperm.symm).map _).sum_eq
  rw [h2, List.map_map]
  congr 1
  apply List.map_congr_left
  intro e he
  have : mapLookup e.1 full = some e.2 :=
    mapLookup_of_mem_nodup e.1 e.2 full hnd (by simpa using he)
  simp [this]

/-- One remote-path chunk upload from the canonical mid-state, for a part
number not yet recorded: the bookkeeping appends the upload, and the
handler finalizes exactly when the count reaches `totalParts`. -/
theorem c5_handler_step (sid uid key : String) (nTotal : Int)
    (done : List (Int × Bytes)) (x : Int × Bytes)
    (hfresh : x.1 ∉ done.map Prod.fst) :
    uploadChunkHandler (c5SessionState sid uid key nTotal done) sid x.1 x.2 true true =
      if (((done ++ [x]).length : Int)) = nTotal then
        completeMultipartUpload (c5SessionState sid uid key nTotal (done ++ [x])) sid
          (c5Session uid key nTotal (done ++ [x])) true
      else
        (c5SessionState sid uid key nTotal (done ++ [x]),
          .progressResp ((((done ++ [x]).length : Int) : ℚ) / (nTotal : ℚ) * 100)) := by
  have hnone : mapLookup x.1 done = none := (mapLookup_eq_none_iff _ _).mpr hfresh
  have hnoneE : mapLookup x.1
      (done.map (fun e => (e.1, (⟨e.1, etagOf e.2⟩ : CompletePart)))) = none := by
    rw [mapLookup_eq_none_iff]
    simpa [List.map_map, Function.comp] using hfresh
  simp only [uploadChunkHandler, c5SessionState, c5Session, putObjectPart]
  rw [mapLookup_cons_self]
  dsimp only
  rw [mapLookup_cons_self]
  dsimp only
  simp only [mapInsert_cons_self, mapInsert_of_not_mem _ _ _ hnone,
    mapInsert_of_not_mem _ _ _ hnoneE]
  simp [List.map_append, List.length_append, List.length_map]

theorem runChunks_nil (sid : String) (st : ServerState) :
    runChunks sid st [] = (st, []) := rfl

theorem runChunks_cons (sid : String) (st : ServerState) (e : Int × Bytes)
    (rest : List (Int × Bytes)) :
    runChunks sid st (e :: rest) =
      ((runChunks sid (uploadChunkHandler st sid e.1 e.2 true true).1 rest).1,
        (uploadChunkHandler st sid e.1 e.2 true true).2 ::
          (runChunks sid (uploadChunkHandler st sid e.1 e.2 true true).1 rest).2) := rfl

/-- Running the remaining uploads `todo` from the canonical mid-state:
exactly one completed response, the session is deleted, and the store holds
the completed object assembled from all uploads. -/
theorem c5_run (sid uid key : String) (n : Nat) (todo done : List (Int × Bytes))
    (hperm : ((done ++ todo).map Prod.fst).Perm (intRange n))
    (hne : todo ≠ []) :
    (runChunks sid (c5SessionState sid uid key (n : Int) done) todo).2.count
        .completed = 1 ∧
    mapLookup sid
      (runChunks sid (c5SessionState sid uid key (n : Int) done) todo).1.sessions = none ∧
    mapLookup uid
        (runChunks sid (c5SessionState sid uid key (n : Int) done) todo).1.remote.uploads =
      some { parts := done ++ todo, status := .completed (c5Obj n (done ++ todo)) } ∧
    (c5Obj n (done ++ todo)).length = ((done ++ todo).map (fun e => e.2.length)).sum := by
  induction todo generalizing done with
  | nil => exact absurd rfl hne
  | cons x rest ih =>
      have hnd : ((done ++ x :: rest).map Prod.fst).Nodup :=
        hperm.nodup_iff.mpr (intRange_nodup n)
      have hfresh : x.1 ∉ done.map Prod.fst := by
        rw [List.map_append, List.nodup_append] at hnd
        intro hmem
        exact hnd.2.2 hmem (by simp)
      have hlentot : (done ++ x :: rest).length = n := by
        have hl := hperm.length_eq
        rwa [List.length_map, intRange_length] at hl
      cases rest with
      | nil =>
          have hfull : (((done ++ [x]).length : Nat) : Int) = ((n : Nat) : Int) := by
            exact_mod_cast hlentot
          rw [runChunks_cons]
          rw [c5_handler_step sid uid key (n : Int) done x hfresh, if_pos hfull,
            c5_finalize sid uid key n (done ++ [x]) hperm]
          rw [runChunks_nil]
          refine ⟨by simp [List.count_cons], by simp [mapLookup], by simp [mapLookup], ?_⟩
          exact c5_obj_length n (done ++ [x]) hperm
      | cons y rest2 =>
          have hlt : ¬ ((((done ++ [x]).length : Nat) : Int) = ((n : Nat) : Int)) := by
            simp only [List.length_append, List.length_cons, List.length_nil]
              at hlentot ⊢
            omega
          rw [runChunks_cons]
          rw [c5_handler_step sid uid key (n : Int) done x hfresh, if_neg hlt]
          have hassoc : (done ++ [x]) ++ (y :: rest2) = done ++ x :: y :: rest2 := by
            simp
          have ihh := ih (done ++ [x]) (by rwa [hassoc]) (by simp)
          rw [hassoc] at ihh
          rcases ihh with ⟨hcount, hsess, hupl, hlen⟩
          refine ⟨?_, ?_, ?_, hlen⟩
          · simp [List.count_cons, hcount]
          · simpa using hsess
          · simpa using hupl

/-! The C5 claim itself. -/

/-- C5: for every remote-path session declared with `totalParts = n ≥ 1`
and every sequence of `n` chunk uploads whose part numbers cover `1..n`
exactly once, in any order, the run reaches completion exactly once (one
completed response, the session removed from the registry), and the byte
length of the assembled final object equals the sum of the chunk lengths. -/
theorem order_independent_assembly (sid uid key : String) (n : Nat)
    (events : List (Int × Bytes))
    (hn : 1 ≤ n)
    (hperm : (events.map Prod.fst).Perm (intRange n)) :
    (runChunks sid (c5SessionState sid uid key (n : Int) []) events).2.count
        .completed = 1 ∧
    mapLookup sid
      (runChunks sid (c5SessionState sid uid key (n : Int) []) events).1.sessions = none ∧
    (∃ obj,
      mapLookup uid
          (runChunks sid (c5SessionState sid uid key (n : Int) []) events).1.remote.uploads =
        some { parts := events, status := .completed obj } ∧
      obj.length = (events.map (fun e => e.2.length)).sum) := by
  have hne : events ≠ [] := by
    intro h
    subst h
    have hl := hperm.length_eq
    simp only [List.length_map, List.length_nil, intRange_length] at hl
    omega
  have h := c5_run sid uid key n events [] (by simpa using hperm) hne
  rcases h with ⟨h1, h2, h3, h4⟩
  exact ⟨h1, h2, ⟨c5Obj n ([] ++ events), by simpa using h3, by simpa using h4⟩⟩

/-- C5 witness at a concrete input: three chunks arriving in the order
2, 1, 3. -/
theorem order_independent_assembly_witness :
    (1 ≤ 3 ∧
      (([(2, [20, 21]), (1, [10]), (3, [30, 31, 32])] :
          List (Int × Bytes)).map Prod.fst).Perm (intRange 3)) ∧
    ((runChunks "sess9" (c5SessionState "sess9" "uid9" "v.bin" ((3 : Nat) : Int) [])
        [(2, [20, 21]), (1, [10]), (3, [30, 31, 32])]).2.count .completed = 1 ∧
    mapLookup "sess9"
      (runChunks "sess9" (c5SessionState "sess9" "uid9" "v.bin" ((3 : Nat) : Int) [])
        [(2, [20, 21]), (1, [10]), (3, [30, 31, 32])]).1.sessions = none ∧
    (∃ obj,
      mapLookup "uid9"
          (runChunks "sess9" (c5SessionState "sess9" "uid9" "v.bin" ((3 : Nat) : Int) [])
            [(2, [20, 21]), (1, [10]), (3, [30, 31, 32])]).1.remote.uploads =
        some { parts := [(2, [20, 21]), (1, [10]), (3, [30, 31, 32])],
               status := .completed obj } ∧
      obj.length = (([(2, [20, 21]), (1, [10]), (3, [30, 31, 32])] :
          List (Int × Bytes)).map (fun e => e.2.length)).sum)) :=
  ⟨⟨by decide, by decide⟩,
    order_independent_assembly "sess9" "uid9" "v.bin" 3
      [(2, [20, 21]), (1, [10]), (3, [30, 31, 32])] (by decide) (by decide)⟩

/-! ## C1 — single-winner finalize (corrected)

Race-model lemmas: generic list facts, the invariant's preservation, and
the two results. -/

theorem list_set_getElem_self {α : Type} (l : List α) (i : Nat) (x : α)
    (h : l[i]? = some x) : l.set i x = l := by
  apply List.ext_getElem?
  intro j
  rw [List.getElem?_set]
  by_cases hij : i = j
  · subst hij
    simp [(List.getElem?_eq_some_iff.mp h).1, h]
  · simp [hij]

theorem getElem?_set_self_of_some {α : Type} (l : List α) (i : Nat) (a x : α)
    (h : l[i]? = some x) : (l.set i a)[i]? = some a := by
  rw [List.getElem?_set]
  simp [(List.getElem?_eq_some_iff.mp h).1]

theorem nodup_fst_index_unique {α β : Type} (l : List (α × β))
    (hnd : (l.map Prod.fst).Nodup) {i j : Nat} {k : α} {bi bj : β}
    (hi : l[i]? = some (k, bi)) (hj : l[j]? = some (k, bj)) : i = j := by
  have hi' : (l.map Prod.fst)[i]? = some k := by
    rw [List.getElem?_map, hi]; rfl
  have hj' : (l.map Prod.fst)[j]? = some k := by
    rw [List.getElem?_map, hj]; rfl
  obtain ⟨hli, hgi⟩ := List.getElem?_eq_some_iff.mp hi'
  obtain ⟨hlj, hgj⟩ := List.getElem?_eq_some_iff.mp hj'
  exact (List.Nodup.getElem_inj_iff hnd).mp (hgi.trans hgj.symm)

theorem map_fst_set_same {α β : Type} (l : List (α × β)) (i : Nat) (k : α)
    (b b' : β) (h : l[i]? = some (k, b)) :
    (l.set i (k, b')).map Prod.fst = l.map Prod.fst := by
  rw [List.map_set]
  apply list_set_getElem_self
  rw [List.getElem?_map, h]
  rfl

/-- Invariant components 1–4 survive any step that replaces one thread's
phase by a phase with the same captured count and leaves the part map
unchanged (the registry flag and the finalize counter are irrelevant to
them). -/
theorem RaceInv_comps_update (st : RaceState) (i : Nat) (pn : Int)
    (ph ph' : ThreadPhase)
    (hget : st.threads[i]? = some (pn, ph))
    (hcap : capturedOf ph' = capturedOf ph)
    (hnd : (st.threads.map Prod.fst).Nodup)
    (hkeys : ∀ k : Int, (mapLookup k st.parts).isSome = true ↔
      ∃ (j : Nat) (pnj : Int) (phj : ThreadPhase),
        st.threads[j]? = some (pnj, phj) ∧ pnj = k ∧ (capturedOf phj).isSome = true)
    (hbound : ∀ (j : Nat) (pnj : Int) (phj : ThreadPhase) (c : Int),
      st.threads[j]? = some (pnj, phj) → capturedOf phj = some c →
        1 ≤ c ∧ c ≤ (st.parts.length : Int))
    (hdist : ∀ (j1 j2 : Nat) (p1 p2 : Int) (f1 f2 : ThreadPhase) (c1 c2 : Int),
      j1 ≠ j2 → st.threads[j1]? = some (p1, f1) → st.threads[j2]? = some (p2, f2) →
      capturedOf f1 = some c1 → capturedOf f2 = some c2 → c1 ≠ c2) :
    (((st.threads.set i (pn, ph')).map Prod.fst).Nodup) ∧
    (∀ k : Int, (mapLookup k st.parts).isSome = true ↔
      ∃ (j : Nat) (pnj : Int) (phj : ThreadPhase),
        (st.threads.set i (pn, ph'))[j]? = some (pnj, phj) ∧ pnj = k ∧
          (capturedOf phj).isSome = true) ∧
    (∀ (j : Nat) (pnj : Int) (phj : ThreadPhase) (c : Int),
      (st.threads.set i (pn, ph'))[j]? = some (pnj, phj) → capturedOf phj = some c →
        1 ≤ c ∧ c ≤ (st.parts.length : Int)) ∧
    (∀ (j1 j2 : Nat) (p1 p2 : Int) (f1 f2 : ThreadPhase) (c1 c2 : Int),
      j1 ≠ j2 → (st.threads.set i (pn, ph'))[j1]? = some (p1, f1) →
      (st.threads.set i (pn, ph'))[j2]? = some (p2, f2) →
      capturedOf f1 = some c1 → capturedOf f2 = some c2 → c1 ≠ c2) := by
  have tr : ∀ (jx : Nat) (px : Int) (fx : ThreadPhase),
      (st.threads.set i (pn, ph'))[jx]? = some (px, fx) →
      ∃ fy, st.threads[jx]? = some (px, fy) ∧ capturedOf fy = capturedOf fx := by
    intro jx px fx hx
    by_cases hij : i = jx
    · subst hij
      rw [getElem?_set_self_of_some _ _ _ _ hget] at hx
      injection hx with hx2
      cases hx2
      exact ⟨ph, hget, hcap.symm⟩
    · rw [List.getElem?_set_ne hij] at hx
      exact ⟨fx, hx, rfl⟩
  refine ⟨by rw [map_fst_set_same _ _ _ _ ph' hget]; exact hnd, ?_, ?_, ?_⟩
  · intro k
    rw [hkeys k]
    constructor
    · rintro ⟨j, pnj, phj, hj, hpk, hcapj⟩
      by_cases hij : i = j
      · subst hij
        rw [hget] at hj
        injection hj with hj2
        cases hj2
        exact ⟨i, pn, ph', getElem?_set_self_of_some _ _ _ _ hget, hpk,
          by rw [hcap]; exact hcapj⟩
      · exact ⟨j, pnj, phj, by rwa [List.getElem?_set_ne hij], hpk, hcapj⟩
    · rintro ⟨j, pnj, phj, hj, hpk, hcapj⟩
      obtain ⟨fy, hy, hcy⟩ := tr j pnj phj hj
      exact ⟨j, pnj, fy, hy, hpk, by rw [hcy]; exact hcapj⟩
  · intro j pnj phj c hj hcapj
    obtain ⟨fy, hy, hcy⟩ := tr j pnj phj hj
    exact hbound j pnj fy c hy (by rw [hcy]; exact hcapj)
  · intro j1 j2 p1 p2 f1 f2 c1 c2 hne h1 h2 hc1 hc2
    obtain ⟨g1, hg1, hcg1⟩ := tr j1 p1 f1 h1
    obtain ⟨g2, hg2, hcg2⟩ := tr j2 p2 f2 h2
    exact hdist j1 j2 p1 p2 g1 g2 c1 c2 hne hg1 hg2
      (by rw [hcg1]; exact hc1) (by rw [hcg2]; exact hc2)

/-- The single-winner invariant is preserved by every race step. -/
theorem raceStep_inv (st : RaceState) (i : Nat) (a : RaceAct)
    (h : RaceInv st) : RaceInv (raceStep st i a) := by
  obtain ⟨hnd, hkeys, hbound, hdist, hfin⟩ := h
  cases hget : st.threads[i]? with
  | none =>
      simpa [raceStep, hget] using ⟨hnd, hkeys, hbound, hdist, hfin⟩
  | some t =>
      obtain ⟨pn, ph⟩ := t
      cases a with
      | lookup =>
          cases ph with
          | start =>
              have hstep : raceStep st i .lookup =
                  { st with threads :=
                      st.threads.set i (pn, if st.inStore then .ready else .dead) } := by
                simp [raceStep, hget]
              rw [hstep]
              obtain ⟨c1, c2, c3, c4⟩ := RaceInv_comps_update st i pn .start
                (if st.inStore then .ready else .dead) hget
                (by cases st.inStore <;> rfl) hnd hkeys hbound hdist
              refine ⟨c1, c2, c3, c4, ?_⟩
              rcases hfin with h0 | ⟨h1, j, pnj, c, hj, hcN⟩
              · exact Or.inl h0
              · refine Or.inr ⟨h1, j, pnj, c, ?_, hcN⟩
                have hij : i ≠ j := fun hij => by
                  subst hij; rw [hget] at hj; simp at hj
                rw [List.getElem?_set_ne hij]
                exact hj
          | ready => simpa [raceStep, hget] using ⟨hnd, hkeys, hbound, hdist, hfin⟩
          | dead => simpa [raceStep, hget] using ⟨hnd, hkeys, hbound, hdist, hfin⟩
          | booked c =>
              simpa [raceStep, hget] using ⟨hnd, hkeys, hbound, hdist, hfin⟩
          | done c => simpa [raceStep, hget] using ⟨hnd, hkeys, hbound, hdist, hfin⟩
      | book =>
          cases ph with
          | ready =>
              have hfreshKey : mapLookup pn st.parts = none := by
                cases hv : mapLookup pn st.parts with
                | none => rfl
                | some v =>
                    have hsome : (mapLookup pn st.parts).isSome = true := by
                      simp [hv]
                    obtain ⟨j, pnj, phj, hj, hpk, hcapj⟩ := (hkeys pn).mp hsome
                    subst hpk
                    have hij : i = j := nodup_fst_index_unique _ hnd hget hj
                    subst hij
                    rw [hget] at hj
                    injection hj with hj2
                    cases hj2
                    simp [capturedOf] at hcapj
              have hlen1 : (mapInsert pn (⟨pn, []⟩ : CompletePart) st.parts).length =
                  st.parts.length + 1 :=
                length_mapInsert_of_not_mem _ _ _ hfreshKey
              have hstep : raceStep st i .book =
                  { st with
                      parts := mapInsert pn ⟨pn, []⟩ st.parts,
                      threads := st.threads.set i
                        (pn, .booked
                          ((mapInsert pn (⟨pn, []⟩ : CompletePart) st.parts).length :
                            Int)) } := by
                simp [raceStep, hget]
              rw [hstep]
              refine ⟨?_, ?_, ?_, ?_, ?_⟩
              · rw [map_fst_set_same _ _ _ _ _ hget]
                exact hnd
              · intro k
                by_cases hk : k = pn
                · subst hk
                  constructor
                  · intro _
                    exact ⟨i, k, _, getElem?_set_self_of_some _ _ _ _ hget, rfl, rfl⟩
                  · intro _
                    rw [mapLookup_insert_self]
                    rfl
                · rw [mapLookup_insert_ne _ _ _ _ hk, hkeys k]
                  constructor
                  · rintro ⟨j, pnj, phj, hj, hpk, hcapj⟩
                    have hij : i ≠ j := fun hij => by
                      subst hij
                      rw [hget] at hj
                      injection hj with hj2
                      cases hj2
                      simp [capturedOf] at hcapj
                    exact ⟨j, pnj, phj, by rwa [List.getElem?_set_ne hij], hpk, hcapj⟩
                  · rintro ⟨j, pnj, phj, hj, hpk, hcapj⟩
                    by_cases hij : i = j
                    · subst hij
                      rw [getElem?_set_self_of_some _ _ _ _ hget] at hj
                      injection hj with hj2
                      cases hj2
                      exact absurd hpk.symm hk
                    · rw [List.getElem?_set_ne hij] at hj
                      exact ⟨j, pnj, phj, hj, hpk, hcapj⟩
              · intro j pnj phj c hj hcapj
                rw [hlen1]
                by_cases hij : i = j
                · subst hij
                  rw [getElem?_set_self_of_some _ _ _ _ hget] at hj
                  injection hj with hj2
                  cases hj2
                  simp only [capturedOf, Option.some_inj] at hcapj
                  rw [← hcapj, hlen1]
                  constructor <;> omega
                · rw [List.getElem?_set_ne hij] at hj
                  have hb := hbound j pnj phj c hj hcapj
                  constructor
                  · exact hb.1
                  · have := hb.2
                    omega
              · intro j1 j2 p1 p2 f1 f2 c1 c2 hne h1 h2 hc1 hc2
                by_cases hi1 : i = j1
                · subst hi1
                  rw [getElem?_set_self_of_some _ _ _ _ hget] at h1
                  injection h1 with h12
                  cases h12
                  simp only [capturedOf, Option.some_inj] at hc1
                  have hij2 : i ≠ j2 := hne
                  rw [List.getElem?_set_ne hij2] at h2
                  have hb2 := hbound j2 p2 f2 c2 h2 hc2
                  rw [← hc1, hlen1]
                  have := hb2.2
                  omega
                · by_cases hi2 : i = j2
                  · subst hi2
                    rw [getElem?_set_self_of_some _ _ _ _ hget] at h2
                    injection h2 with h22
                    cases h22
                    simp only [capturedOf, Option.some_inj] at hc2
                    rw [List.getElem?_set_ne hi1] at h1
                    have hb1 := hbound j1 p1 f1 c1 h1 hc1
                    rw [← hc2, hlen1]
                    have := hb1.2
                    omega
                  · rw [List.getElem?_set_ne hi1] at h1
                    rw [List.getElem?_set_ne hi2] at h2
                    exact hdist j1 j2 p1 p2 f1 f2 c1 c2 hne h1 h2 hc1 hc2
              · rcases hfin with h0 | ⟨h1, j, pnj, c', hj, hcN⟩
                · exact Or.inl h0
                · refine Or.inr ⟨h1, j, pnj, c', ?_, hcN⟩
                  have hij : i ≠ j := fun hij => by
                    subst hij; rw [hget] at hj; simp at hj
                  rw [List.getElem?_set_ne hij]
                  exact hj
          | start => simpa [raceStep, hget] using ⟨hnd, hkeys, hbound, hdist, hfin⟩
          | dead => simpa [raceStep, hget] using ⟨hnd, hkeys, hbound, hdist, hfin⟩
          | booked c =>
              simpa [raceStep, hget] using ⟨hnd, hkeys, hbound, hdist, hfin⟩
          | done c => simpa [raceStep, hget] using ⟨hnd, hkeys, hbound, hdist, hfin⟩
      | finish =>
          cases ph with
          | booked c =>
              obtain ⟨c1, c2, c3, c4⟩ := RaceInv_comps_update st i pn (.booked c)
                (.done c) hget rfl hnd hkeys hbound hdist
              by_cases hc : c = st.totalParts
              · have hstep : raceStep st i .finish =
                    { st with
                        finalizeCalls := st.finalizeCalls + 1, inStore := false,
                        threads := st.threads.set i (pn, .done c) } := by
                  simp [raceStep, hget, hc]
                rw [hstep]
                refine ⟨c1, c2, c3, c4, ?_⟩
                rcases hfin with h0 | ⟨h1, j, pnj, c', hj, hcN⟩
                · refine Or.inr ⟨by show st.finalizeCalls + 1 = 1; omega, i, pn, c,
                    getElem?_set_self_of_some _ _ _ _ hget, hc⟩
                · have hij : i ≠ j := fun hij => by
                    subst hij; rw [hget] at hj; simp at hj
                  exact absurd (hc.trans hcN.symm)
                    (hdist i j pn pnj (.booked c) (.done c') c c' hij hget hj rfl rfl)
              · have hstep : raceStep st i .finish =
                    { st with threads := st.threads.set i (pn, .done c) } := by
                  simp [raceStep, hget, hc]
                rw [hstep]
                refine ⟨c1, c2, c3, c4, ?_⟩
                rcases hfin with h0 | ⟨h1, j, pnj, c', hj, hcN⟩
                · exact Or.inl h0
                · refine Or.inr ⟨h1, j, pnj, c', ?_, hcN⟩
                  have hij : i ≠ j := fun hij => by
                    subst hij; rw [hget] at hj; simp at hj
                  rw [List.getElem?_set_ne hij]
                  exact hj
          | start => simpa [raceStep, hget] using ⟨hnd, hkeys, hbound, hdist, hfin⟩
          | ready => simpa [raceStep, hget] using ⟨hnd, hkeys, hbound, hdist, hfin⟩
          | dead => simpa [raceStep, hget] using ⟨hnd, hkeys, hbound, hdist, hfin⟩
          | done c => simpa [raceStep, hget] using ⟨hnd, hkeys, hbound, hdist, hfin⟩

theorem runRace_inv (sched : List (Nat × RaceAct)) (st : RaceState)
    (h : RaceInv st) : RaceInv (runRace st sched) := by
  induction sched generalizing st with
  | nil => exact h
  | cons step rest ih => exact ih _ (raceStep_inv _ _ _ h)

theorem mkRace_inv (threadParts : List Int) (totalParts : Int)
    (hnd : threadParts.Nodup) : RaceInv (mkRace threadParts totalParts) := by
  have hget : ∀ (i : Nat) (pn : Int) (ph : ThreadPhase),
      (mkRace threadParts totalParts).threads[i]? = some (pn, ph) → ph = .start := by
    intro i pn ph hg
    simp only [mkRace, List.getElem?_map] at hg
    cases hv : threadParts[i]? with
    | none => rw [hv] at hg; simp at hg
    | some q =>
        rw [hv] at hg
        rw [show Option.map (fun pn : Int => (pn, ThreadPhase.start)) (some q) =
            some (q, ThreadPhase.start) from rfl] at hg
        injection hg with hg2
        cases hg2
        rfl
  refine ⟨?_, ?_, ?_, ?_, Or.inl rfl⟩
  · simp only [mkRace, List.map_map]
    rw [show (Prod.fst ∘ fun pn : Int => (pn, ThreadPhase.start)) = id from rfl,
      List.map_id]
    exact hnd
  · intro k
    constructor
    · intro hsome
      simp [mkRace, mapLookup] at hsome
    · rintro ⟨j, pnj, phj, hj, hpk, hcapj⟩
      rw [hget j pnj phj hj] at hcapj
      simp [capturedOf] at hcapj
  · intro j pnj phj c hj hcapj
    rw [hget j pnj phj hj] at hcapj
    simp [capturedOf] at hcapj
  · intro j1 j2 p1 p2 f1 f2 c1 c2 hne h1 h2 hc1 hc2
    rw [hget j1 p1 f1 h1] at hc1
    simp [capturedOf] at hc1

theorem RaceInv_calls_le_one (st : RaceState) (h : RaceInv st) :
    st.finalizeCalls ≤ 1 := by
  rcases h.2.2.2.2 with h0 | ⟨h1, _⟩ <;> omega

/-- C1 counterexample: the claim fails on the code.  With `totalParts = 2`
and three request threads — parts 1, 2 and a concurrent duplicate retry of
part 2 — the schedule in which all three pass their locked bookkeeping
section before any completion check runs makes *two* threads observe
`uploadedCount == totalParts` (the duplicate insert leaves the count at 2),
and both run finalize: the store-level complete-multipart call executes
twice for one session.  The code releases the per-session mutex before the
completion check (part_000 line 185 vs 193), so neither the finalize
decision nor the registry removal happens under the lock. -/
theorem finalize_not_single_winner_cx :
    (runRace (mkRace [1, 2, 2] 2)
        [(0, .lookup), (1, .lookup), (2, .lookup),
          (0, .book), (1, .book), (2, .book),
          (1, .finish), (2, .finish)]).finalizeCalls = 2 ∧
    ¬ ((runRace (mkRace [1, 2, 2] 2)
        [(0, .lookup), (1, .lookup), (2, .lookup),
          (0, .book), (1, .book), (2, .book),
          (1, .finish), (2, .finish)]).finalizeCalls ≤ 1) := by
  decide

/-- C1 amended: the completion check compares a count captured under the
per-session lock, but finalize and the registry removal run after the lock
is released.  Provided no two request threads carry the same part number,
at most one thread ever captures a count equal to `totalParts`, so finalize
executes at most once per session under every interleaving; with a
concurrent duplicate upload of the final part the guarantee fails (see the
counterexample). -/
theorem single_winner_finalize (threadParts : List Int) (totalParts : Int)
    (hnd : threadParts.Nodup) (sched : List (Nat × RaceAct)) :
    (runRace (mkRace threadParts totalParts) sched).finalizeCalls ≤ 1 :=
  RaceInv_calls_le_one _ (runRace_inv sched _ (mkRace_inv threadParts totalParts hnd))

/-- C1 amended witness at a concrete input: two threads with distinct parts
1 and 2, fully interleaved. -/
theorem single_winner_finalize_witness :
    ([1, 2] : List Int).Nodup ∧
    (runRace (mkRace [1, 2] 2)
        [(0, .lookup), (1, .lookup), (0, .book), (1, .book),
          (0, .finish), (1, .finish)]).finalizeCalls ≤ 1 :=
  ⟨by decide,
    single_winner_finalize [1, 2] 2 (by decide)
      [(0, .lookup), (1, .lookup), (0, .book), (1, .book),
        (0, .finish), (1, .finish)]⟩

end Upload
